import Mathlib

/-!
Shallow embedding of the path-addressable document transformation engine of
`mongoose-utils-kit` (src/paginate.ts and src/toJSON.ts), together with proofs
about the claims of its specification.

Modelling conventions:
* A JavaScript value is modelled by `Val` below.  JavaScript `undefined` is not
  a `Val`; wherever the source can produce or store `undefined`, the embedding
  uses `Option Val` (`none` = `undefined`).  Object fields therefore map keys
  to `Option Val`, so that a key that is present but holds `undefined`
  (as produced, e.g., by `ret.id = ret._id?.toString()` when `_id` is absent)
  is distinguished from an absent key, exactly as in JavaScript.
* Numbers are modelled by `Int`: every quantity the claims touch (page, limit,
  counts) is an integer in the source, and `Math.ceil` is only applied to
  quotients of non-negative integers.
* Property access is modelled for plain record keys only: the specification's
  data model (§3) restricts path segments to field names of nested Documents,
  so built-in properties of JavaScript primitives and arrays (`length`,
  numeric indices, prototype members) are outside the model; reading a field
  name off a non-object yields `undefined`.
* The TypeScript is compiled as ES modules, hence strict mode: assigning a
  property to a primitive throws `TypeError`.  Fallible operations return
  `Option` (`none` = the operation throws).
-/

/-- A JavaScript value as used by the engine: `null`, booleans, numbers,
strings, arrays, and plain objects whose fields are an insertion-ordered
association list.  A field value of `none` is a stored `undefined`. -/
inductive Val where
  | vnull : Val
  | vbool (b : Bool) : Val
  | vnum (n : Int) : Val
  | vstr (s : String) : Val
  | varr (xs : List Val) : Val
  | vobj (fs : List (String × Option Val)) : Val

open Val

/-- Object fields: insertion-ordered association list from key to value,
where `none` is a stored `undefined`. -/
abbrev Fields := List (String × Option Val)

/-- JavaScript truthiness of a value. -/
def jsTruthy : Val → Bool
  | vnull => false
  | vbool b => b
  | vnum n => n != 0
  | vstr s => s != ""
  | varr _ => true
  | vobj _ => true

/-- Raw association-list lookup: `some v` when the key is present with entry
value `v` (`v = none` being a stored `undefined`), `none` when absent. -/
def assocLookup {α : Type} (l : List (String × α)) (k : String) : Option α :=
  (l.find? (fun p => p.1 == k)).map (fun p => p.2)

/-- JavaScript property assignment on an object: replace the entry in place
when the key is present, append otherwise (JS objects keep insertion order). -/
def assocSet {α : Type} (l : List (String × α)) (k : String) (v : α) :
    List (String × α) :=
  if l.any (fun p => p.1 == k) then
    l.map (fun p => if p.1 == k then (k, v) else p)
  else l ++ [(k, v)]

/-- JavaScript `delete obj[k]`: remove the key. -/
def eraseKey {α : Type} (l : List (String × α)) (k : String) :
    List (String × α) :=
  l.filter (fun p => !(p.1 == k))

/-- JavaScript `k in obj`: the key is present (possibly holding a stored `undefined`). -/
def hasKeyF (fs : Fields) (k : String) : Bool :=
  fs.any (fun p => p.1 == k)

/-- The value of `obj[k]` / `obj?.[k]` as the engine observes it: `none` for
an absent key, a stored `undefined`, or a non-object receiver (path segments
are plain field names, see the module comment). -/
def jsGet (v : Val) (k : String) : Option Val :=
  match v with
  | vobj fs => (assocLookup fs k).join
  | _ => none

/-- Flattened field lookup on a field list (`obj[k]` where `obj` has fields
`fs`). -/
def objLookupJS (fs : Fields) (k : String) : Option Val :=
  (assocLookup fs k).join

/-- JavaScript `a || b` on an optional left operand (used for
`ret.createdAt || doc.createdAt`). -/
def jsOrOpt (a b : Option Val) : Option Val :=
  match a with
  | some v => if jsTruthy v then some v else b
  | none => b

/-- The JavaScript `String.split` on a one-character separator, written on the
character list so that it evaluates inside the kernel (Lean's own
`String.splitOn` has the same semantics for the separators the plugins use,
but is defined by well-founded recursion and does not reduce definitionally). -/
def splitChar (c : Char) : List Char → List (List Char)
  | [] => [[]]
  | ch :: rest =>
      match splitChar c rest with
      | [] => [[]]
      | g :: gs => if ch == c then [] :: g :: gs else (ch :: g) :: gs

/-- JavaScript `String.split` on a two-character separator (used for `::`),
leftmost-first and non-overlapping, like `splitChar`. -/
def splitSep2 (c1 c2 : Char) : List Char → List (List Char)
  | [] => [[]]
  | [ch] => [[ch]]
  | ch1 :: ch2 :: rest =>
      if ch1 == c1 && ch2 == c2 then
        match splitSep2 c1 c2 rest with
        | [] => [[]]
        | gs => [] :: gs
      else
        match splitSep2 c1 c2 (ch2 :: rest) with
        | [] => [[]]
        | g :: gs => (ch1 :: g) :: gs

/-- JavaScript `s.split(c)` for a one-character separator `c`. -/
def jsSplitC (c : Char) (s : String) : List String :=
  (splitChar c s.data).map String.mk

/-- JavaScript `s.split` for a two-character separator. -/
def jsSplitCC (c1 c2 : Char) (s : String) : List String :=
  (splitSep2 c1 c2 s.data).map String.mk

/-- JavaScript `String.trim`: strip leading and trailing whitespace. -/
def jsTrim (s : String) : String :=
  String.mk
    (((s.data.dropWhile Char.isWhitespace).reverse.dropWhile
        Char.isWhitespace).reverse)

/-- Splitting a dotted path, as `path.split('.')` does. -/
def splitPath (s : String) : List String := jsSplitC '.' s

/-- First segment of a dotted path (the top-level key it addresses). -/
def headOf (s : String) : String := (splitPath s).headD ""

/-! ## Deep Path Accessor: reads -/

/-- The `values.find((v) => v !== undefined && v !== null)` step over the results of
mapping one key across the elements of an array, from `getDeepValue` in
src/paginate.ts. -/
def firstMatch : List (Option Val) → Option Val
  | [] => none
  | none :: rest => firstMatch rest
  | some vnull :: rest => firstMatch rest
  | some v :: rest => some v

/-- One step of the `reduce` in `getDeepValue` (src/paginate.ts lines 79-88):
on an array, map the key over the elements and take the first value that is
neither `undefined` nor `null`; otherwise `current ? current[key] : undefined`. -/
def stepDeep (current : Option Val) (key : String) : Option Val :=
  match current with
  | some (varr xs) => firstMatch (xs.map (fun item => jsGet item key))
  | some v => if jsTruthy v then jsGet v key else none
  | none => none

/-- The `reduce` of `getDeepValue` over the path parts. -/
def getDeepGo (current : Option Val) (parts : List String) : Option Val :=
  parts.foldl stepDeep current

/-- The `getDeepValue(obj, path)` helper from src/paginate.ts: split the path on `.` and
reduce. -/
def getDeepValue (obj : Val) (path : String) : Option Val :=
  getDeepGo (some obj) (splitPath path)

/-- The loop of `getNestedValue` (src/toJSON.ts lines 28-38): per segment,
an array maps the key across its elements keeping every defined value
(`filter(v => v !== undefined)` keeps `null`s), any other receiver steps by
`current?.[key]`; `undefined` at any point returns `undefined`. -/
def getNestedLoop : Val → List String → Option Val
  | cur, [] => some cur
  | varr xs, k :: ks =>
      getNestedLoop (varr (xs.filterMap (fun item => jsGet item k))) ks
  | cur, k :: ks =>
      match jsGet cur k with
      | none => none
      | some v => getNestedLoop v ks

/-- The `getNestedValue(obj, pathSegments)` helper from src/toJSON.ts, including the
falsy-receiver guard `if (!obj) return undefined`. -/
def getNestedValue (obj : Val) (pathSegments : List String) : Option Val :=
  if jsTruthy obj then getNestedLoop obj pathSegments else none

/-! ## Deep Path Accessor: delete -/

mutual
/-- The `deleteAtPath(obj, path)` helper from src/toJSON.ts lines 15-26: non-objects are
left alone, arrays recurse the deletion into every element, the final segment
deletes the key, and an intermediate segment recurses into the field's value
(a no-op when the key is absent).  An empty path is unreachable from the
plugin (paths come from `split('.')`, which is never empty); on it the source
recursion reaches no deletable index and leaves the value unchanged. -/
def deleteAtPath : Val → List String → Val
  | varr xs, p => varr (deleteAtPathArr xs p)
  | vobj fs, [k] => vobj (eraseKey fs k)
  | vobj fs, k :: ks => vobj (deleteAtPathFields fs k ks)
  | v, _ => v

/-- Elementwise recursion of `deleteAtPath` over an array (`obj.forEach`). -/
def deleteAtPathArr : List Val → List String → List Val
  | [], _ => []
  | x :: xs, p => deleteAtPath x p :: deleteAtPathArr xs p

/-- Recursion of `deleteAtPath` into the value stored at an intermediate key:
entries with other keys are untouched, and a stored `undefined` is left alone
(the source recursion returns immediately on a falsy value). -/
def deleteAtPathFields : Fields → String → List String → Fields
  | [], _, _ => []
  | (k', some v) :: rest, k, ks =>
      (if k' == k then (k', some (deleteAtPath v ks)) else (k', some v))
        :: deleteAtPathFields rest k ks
  | (k', none) :: rest, k, ks => (k', none) :: deleteAtPathFields rest k ks
end

/-! ## Deep Path Accessor: set -/

mutual
/-- The loop of `setNestedValue` (src/toJSON.ts lines 40-54), returning the
mutated receiver, or `none` when the loop throws.  At the final segment the
key is assigned wholesale.  At an intermediate segment: an array value is
descended into without fanning — subsequent segments are plain field names,
so every later read or write lands on non-index array properties, which are
invisible to every reader in this codebase; the array is therefore returned
unchanged.  A truthy non-object value is descended into and the next property
assignment throws (strict mode); a falsy or absent value is replaced by a
fresh `{}`. -/
def setLoop : Val → List String → Val → Option Val
  | cur, [], _ => some cur
  | vobj fs, [k], v => some (vobj (assocSet fs k (some v)))
  | vobj fs, k :: ks, v =>
      match objLookupJS fs k with
      | some (varr xs) => some (vobj fs)
      | some (vobj gs) =>
          (setLoop (vobj gs) ks v).map (fun w => vobj (assocSet fs k (some w)))
      | some w =>
          if jsTruthy w then none
          else (setLoop (vobj []) ks v).map
            (fun w' => vobj (assocSet fs k (some w')))
      | none =>
          (setLoop (vobj []) ks v).map
            (fun w' => vobj (assocSet fs k (some w')))
  | varr xs, _ :: _, _ => some (varr xs)
  | cur, _ :: _, _ => none
end

/-- The `setNestedValue(obj, pathSegments, value)` helper from src/toJSON.ts, including
the falsy-receiver guard `if (!obj) return`. `none` means the call throws. -/
def setNestedValue (obj : Val) (pathSegments : List String) (value : Val) :
    Option Val :=
  if jsTruthy obj then setLoop obj pathSegments value else some obj

/-! ## Deep Path Accessor: rename (paginate plugin) -/

mutual
/-- The `deepRename` closure inside `renameNestedField` (src/paginate.ts lines 91-115):
falsy and primitive receivers are left alone, arrays fan the rename into
every element with the same path, the final segment moves the value to
`target` (assignment then delete) when it is defined, and an intermediate
segment recurses into the field's value. -/
def deepRename (target : String) : Val → List String → Val
  | varr xs, parts => varr (deepRenameArr target xs parts)
  | vobj fs, [k] =>
      match objLookupJS fs k with
      | some v => vobj (eraseKey (assocSet fs target (some v)) k)
      | none => vobj fs
  | vobj fs, k :: ks => vobj (deepRenameFields target fs k ks)
  | v, _ => v

/-- Elementwise recursion of `deepRename` over an array. -/
def deepRenameArr (target : String) : List Val → List String → List Val
  | [], _ => []
  | x :: xs, p => deepRename target x p :: deepRenameArr target xs p

/-- Recursion of `deepRename` into the value stored at an intermediate key. -/
def deepRenameFields (target : String) :
    Fields → String → List String → Fields
  | [], _, _ => []
  | (k', some v) :: rest, k, ks =>
      (if k' == k then (k', some (deepRename target v ks)) else (k', some v))
        :: deepRenameFields target rest k ks
  | (k', none) :: rest, k, ks => (k', none) :: deepRenameFields target rest k ks
end

/-- The `renameNestedField(obj, sourcePath, targetKey)` helper from src/paginate.ts. -/
def renameNestedField (obj : Val) (sourcePath : String) (targetKey : String) :
    Val :=
  deepRename targetKey obj (splitPath sourcePath)

/-! ## Well-formed documents -/

mutual
/-- A Document in the sense of spec §3: no stored `undefined` anywhere and
no duplicate keys in any object (JavaScript objects cannot have either). -/
def wfV : Val → Bool
  | vnull => true
  | vbool _ => true
  | vnum _ => true
  | vstr _ => true
  | varr xs => wfArr xs
  | vobj fs => wfFields fs

/-- The predicate `wfV` over the elements of an array. -/
def wfArr : List Val → Bool
  | [] => true
  | x :: xs => wfV x && wfArr xs

/-- The predicate `wfV` over the fields of an object: keys pairwise distinct, every entry
holds a defined, well-formed value. -/
def wfFields : Fields → Bool
  | [] => true
  | (k, some v) :: rest =>
      !(rest.any (fun p => p.1 == k)) && wfV v && wfFields rest
  | (_, none) :: _ => false
end

/-! ## toJSON plugin (src/toJSON.ts) -/

/-- Fields of an object value (the transform's `ret` is always an object). -/
def objFields : Val → Fields
  | vobj fs => fs
  | _ => []

/-- The `renameDeepKey(ret, fromPath, toPath)` helper from src/toJSON.ts lines 57-72:
fetch the value at the source path, return unchanged when it is `undefined`,
otherwise set it at the destination path and delete the source path.
`none` means the `setNestedValue` call throws. -/
def renameDeepKey (ret : Val) (fromPath : String) (toPath : String) :
    Option Val :=
  let fromSegments := splitPath fromPath
  let toSegments := splitPath toPath
  match getNestedValue ret fromSegments with
  | none => some ret
  | some value =>
      (setNestedValue ret toSegments value).map
        (fun r => deleteAtPath r fromSegments)

/-- The `parseAliasString(aliasString)` parsing helper from src/toJSON.ts lines 75-87: split on
`;`, trim, drop empties; each part contributes `from ↦ to` from its first two
`:`-separated components when both are non-empty (so a `from::to` part has an
empty second component and is dropped).  The result object keeps insertion
order with later duplicate sources overwriting in place. -/
def parseAliasString (aliasString : String) : List (String × String) :=
  let parts := ((jsSplitC ';' aliasString).map jsTrim).filter
    (fun p => p != "")
  parts.foldl
    (fun aliasMap part =>
      let comps := (jsSplitC ':' part).map jsTrim
      let src := comps.headD ""
      let dst := (comps[1]?).getD ""
      if src != "" && dst != "" then assocSet aliasMap src dst else aliasMap)
    []

/-- The `alias` option of the transform: a string or a source→destination
record (`string | Record<string, string>`). -/
inductive AliasSpec where
  | str (s : String)
  | map (m : List (String × String))

/-- The options of interest passed to `doc.toJSON()`.  The source field
`alias` is called `aliasSpec` here because `alias` is reserved in Lean. -/
structure ToJSONOptions where
  includeTimeStamps : Bool := false
  aliasSpec : Option AliasSpec := none

/-- The alias pairs the transform iterates over: `parseAliasString` for a
string (a falsy — empty — string is skipped by `if (options.alias)`), the
record's entries in insertion order for the map form. -/
def aliasEntries : Option AliasSpec → List (String × String)
  | none => []
  | some (.str s) => if s != "" then parseAliasString s else []
  | some (.map m) => m

/-- The alias loop of the transform: `renameDeepKey` per entry, propagating
a thrown `TypeError`. -/
def applyAliasEntries : List (String × String) → Fields → Option Fields
  | [], fs => some fs
  | (src, dst) :: rest, fs =>
      match renameDeepKey (vobj fs) src dst with
      | none => none
      | some r => applyAliasEntries rest (objFields r)

/-- The private-field removal step of the transform (src/toJSON.ts lines
141-147): for every schema path flagged `private`, `deleteAtPath` on the
split path.  The schema metadata is the mapping from dotted path to flag
(spec §3). -/
def privacyFilter (schemaPaths : List (String × Bool)) (ret : Val) : Val :=
  schemaPaths.foldl
    (fun v pr => if pr.2 then deleteAtPath v (splitPath pr.1) else v) ret

/-- JavaScript `.toString()` as used on `ret._id`.  Only the string's
existence matters to any claim; the renderings of arrays and objects are
approximate. -/
def jsToString : Val → String
  | vnull => "null"
  | vbool b => if b then "true" else "false"
  | vnum n => toString n
  | vstr s => s
  | varr _ => ""
  | vobj _ => "[object Object]"

/-- Stage `r1` of the transform: the privacy filter over the schema paths
(the result of `deleteAtPath` on an object is an object). -/
def transformR1 (schemaPaths : List (String × Bool)) (ret : Fields) :
    Fields :=
  objFields (privacyFilter schemaPaths (vobj ret))

/-- Stage `r2`: `ret.id = ret._id?.toString()` — the key `id` is created
even when `_id` is nullish, then holding a stored `undefined`. -/
def transformR2 (schemaPaths : List (String × Bool)) (ret : Fields) :
    Fields :=
  assocSet (transformR1 schemaPaths ret) "id"
    (match objLookupJS (transformR1 schemaPaths ret) "_id" with
     | some vnull => none
     | some v => some (vstr (jsToString v))
     | none => none)

/-- Stage `r3`: the timestamp handling — with `includeTimeStamps` the two
keys are assigned `ret.x || doc.x` (key present even when both are absent),
otherwise both keys are deleted. -/
def transformR3 (schemaPaths : List (String × Bool)) (doc : Val)
    (ret : Fields) (options : ToJSONOptions) : Fields :=
  if options.includeTimeStamps then
    assocSet
      (assocSet (transformR2 schemaPaths ret) "createdAt"
        (jsOrOpt (objLookupJS (transformR2 schemaPaths ret) "createdAt")
          (jsGet doc "createdAt")))
      "updatedAt"
      (jsOrOpt
        (objLookupJS
          (assocSet (transformR2 schemaPaths ret) "createdAt"
            (jsOrOpt (objLookupJS (transformR2 schemaPaths ret) "createdAt")
              (jsGet doc "createdAt")))
          "updatedAt")
        (jsGet doc "updatedAt"))
  else
    eraseKey (eraseKey (transformR2 schemaPaths ret) "createdAt") "updatedAt"

/-- The toJSON transform before alias application (src/toJSON.ts lines
141-163): privacy filter, `ret.id = ret._id?.toString()`, timestamp
handling, then the unconditional `_id`/`__v`/`password` deletes
(`parseObject` is the identity placeholder it is in the source). -/
def transformBase (schemaPaths : List (String × Bool)) (doc : Val)
    (ret : Fields) (options : ToJSONOptions) : Fields :=
  eraseKey (eraseKey (eraseKey (transformR3 schemaPaths doc ret options)
    "_id") "__v") "password"

/-- The toJSON `transform(doc, ret, options)` from src/toJSON.ts lines
141-186, with no pre-existing chained transform (`existingTransform`
undefined): the base stages, then alias application.  `none` means the
transform throws. -/
def transform (schemaPaths : List (String × Bool)) (doc : Val) (ret : Fields)
    (options : ToJSONOptions) : Option Fields :=
  applyAliasEntries (aliasEntries options.aliasSpec)
    (transformBase schemaPaths doc ret options)

/-! ## paginate plugin (src/paginate.ts) -/

/-- An aggregation pipeline stage is opaque to the plugin: it is only ever
passed through to the Document Store. -/
abbrev Stage := String

/-- A Mongoose `PopulateOptions` object as this plugin builds them: a path,
a space-joined `select` projection, and at most one nested child plan. -/
inductive PopOpt where
  | mk (path : String) (select : String) (child : Option PopOpt)

/-- The `path` of a populate plan node. -/
def PopOpt.path : PopOpt → String
  | .mk p _ _ => p

/-- The `select` projection of a populate plan node. -/
def PopOpt.select : PopOpt → String
  | .mk _ s _ => s

/-- The nested child of a populate plan node. -/
def PopOpt.child : PopOpt → Option PopOpt
  | .mk _ _ c => c

/-- The `buildNestedPopulateQuery(field, selectFields)` helper from src/paginate.ts
lines 45-61, modelled on the segment list: the source re-joins the tail with
`.` and re-splits it, which is the identity on segments produced by a split.
Every node of the chain receives the same space-joined projection. -/
def buildNestedPopulateQuery : List String → List String → PopOpt
  | [], selectFields => PopOpt.mk "" (String.intercalate " " selectFields) none
  | [f], selectFields => PopOpt.mk f (String.intercalate " " selectFields) none
  | f :: rest, selectFields =>
      PopOpt.mk f (String.intercalate " " selectFields)
        (some (buildNestedPopulateQuery rest selectFields))

/-- One populate directive (src/paginate.ts lines 215-238): trim, skip when
empty, split off the `:`-separated projection (defaulting to `_id` when
missing or empty), then either a flat node or, for a dotted path, a parent
node with the nested chain built from the remaining segments. -/
def parsePopulateDirective (populateOptionRaw : String) : Option PopOpt :=
  let populateOption := jsTrim populateOptionRaw
  if populateOption == "" then none
  else
    let comps := jsSplitC ':' populateOption
    let path := comps.headD ""
    let select := match comps[1]? with
      | some f => if f == "" then ["_id"] else (jsSplitC ',' f).map jsTrim
      | none => ["_id"]
    let segs := splitPath path
    if segs.length > 1 then
      some (PopOpt.mk (segs.headD "") (String.intercalate " " select)
        (some (buildNestedPopulateQuery segs.tail select)))
    else some (PopOpt.mk path (String.intercalate " " select) none)

/-- The populate plan attached to a find-mode fetch: the `;`-separated
directives in order, empty ones skipped. -/
def buildPopulatePlans (populateFields : String) : List PopOpt :=
  if populateFields.length > 0 then
    (jsSplitC ';' populateFields).filterMap parsePopulateDirective
  else []

/-- The message of the error thrown on a sort directive whose key is empty
(the interpolated key is always the empty string there). -/
def sortErrorMsg : String := "Invalid field \"\" passed to sort()"

/-- The `forEach` of the sortBy parser (src/paginate.ts lines 131-141):
per `,`-separated directive, the key is the part before `:`, `desc` maps to
`-1` and anything else to `1`; an empty key throws; the key `date` is
remapped to `createdAt`; assignments build the sort record in order. -/
def parseSortGo : List String → List (String × Int) →
    Except String (List (String × Int))
  | [], sortAcc => .ok sortAcc
  | sortOption :: rest, sortAcc =>
      let comps := jsSplitC ':' sortOption
      let key := comps.headD ""
      let sortOrder : Int := if comps[1]? == some "desc" then -1 else 1
      if key == "" then .error sortErrorMsg
      else if key == "name" then parseSortGo rest (assocSet sortAcc key sortOrder)
      else if key == "date" then
        parseSortGo rest (assocSet sortAcc "createdAt" sortOrder)
      else parseSortGo rest (assocSet sortAcc key sortOrder)

/-- Parsing of `options.sortBy`. -/
def parseSortBy (sortBy : String) : Except String (List (String × Int)) :=
  parseSortGo (jsSplitC ',' sortBy) []

/-- The constant `Number.MAX_SAFE_INTEGER`. -/
def maxSafeInteger : Nat := 2 ^ 53 - 1

/-- Exact `Math.ceil(a / b)` for the non-negative integers the plugin divides
(count ≥ 0, limit ≥ 1; at these magnitudes the float quotient's ceiling is
the exact ceiling). -/
def ceilDivNat (a b : Nat) : Nat := (a + b - 1) / b

/-- The Query Result Envelope (spec §3). -/
structure QueryResult where
  results : List Val
  page : Int
  limit : Int
  totalPages : Int
  totalResults : Int

/-- The `buildResult` helper from src/paginate.ts lines 64-76: `page === -1` reports
page 1 and `limit = totalResults`; otherwise a falsy page reports 1. -/
def buildResult (results : List Val) (totalResults : Int) (totalPages : Int)
    (page : Int) (limit : Int) : QueryResult :=
  { results := results
    page := if page = -1 then 1 else if page = 0 then 1 else page
    limit := if page = -1 then totalResults else limit
    totalPages := totalPages
    totalResults := totalResults }

/-- The abstract Document Store operations the paginate entry point issues,
in issue order, with the parameters the source hands them. -/
inductive StoreOp where
  | countDocuments (filter : Val)
  | find (filter : Val) (sort : List (String × Int)) (skip : Int)
      (limit : Int) (select : Option String) (populates : List PopOpt)
  | aggregate (pipeline : List Stage) (sort : List (String × Int))
      (skip : Int) (limit : Int)
  | aggregateCount (pipeline : List Stage)

/-- The Document Store collaborator's responses (spec §6): a count, the
find-mode documents, the aggregation documents, and the aggregation count
(`none` models an empty `$count` result, which the source reads as 0). -/
structure Store where
  countResult : Nat := 0
  findDocs : List Val := []
  aggDocs : List Val := []
  aggCountResult : Option Nat := none

/-- The paginate options (src/paginate.ts lines 12-22).  The source field
`alias` is called `aliasSpec` here because `alias` is reserved in Lean. -/
structure PaginateOptions where
  sortBy : Option String := none
  populate : Option String := none
  limit : Option Int := none
  page : Option Int := none
  fields : Option String := none
  aggregation : Option (List Stage) := none
  aliasSpec : Option String := none
  includeTimeStamps : Bool := false
  isShuffleRecord : Bool := false

/-- The per-document identity rename both modes perform:
`obj.id = obj._id; delete obj._id` (documents from the store are objects;
others are returned unchanged). -/
def formatResultDoc (d : Val) : Val :=
  match d with
  | vobj fs => vobj (eraseKey (assocSet fs "id" (objLookupJS fs "_id")) "_id")
  | v => v

/-- One alias rule of the aggregation path (src/paginate.ts lines 181-194):
a rule containing `::` is a deep rename via `renameNestedField`; otherwise a
rule containing `:` fans the listed fields out, copying each deep value up to
a top-level key when it is defined; any other rule is a no-op.  `includes` is
modelled by the length of the corresponding split. -/
def applyPaginateRule (doc : Val) (rule : String) : Val :=
  if (jsSplitCC ':' ':' rule).length > 1 then
    let comps := (jsSplitCC ':' ':' rule).map jsTrim
    renameNestedField doc (comps.headD "") ((comps[1]?).getD "")
  else if (jsSplitC ':' rule).length > 1 then
    let comps := (jsSplitC ':' rule).map jsTrim
    let basePath := comps.headD ""
    let fieldsString := (comps[1]?).getD ""
    let fields := (jsSplitC ',' fieldsString).map jsTrim
    fields.foldl
      (fun d field =>
        let fullPath := if basePath != "" then basePath ++ "." ++ field
          else field
        match getDeepValue d fullPath with
        | some value =>
            match d with
            | vobj fs => vobj (assocSet fs field (some value))
            | other => other
        | none => d)
      doc
  else doc

/-- The alias rules of the aggregation path: split on `;`, trim, drop
empties, apply in order. -/
def applyPaginateAliases (aliasString : String) (doc : Val) : Val :=
  let aliasRules := ((jsSplitC ';' aliasString).map jsTrim).filter
    (fun r => r != "")
  aliasRules.foldl applyPaginateRule doc

/-- Per-document formatting of the aggregation path: alias rules (when the
alias option is a non-empty string) then the identity rename. -/
def formatAggDoc (aliasOpt : Option String) (doc : Val) : Val :=
  let d := match aliasOpt with
    | some a => if a.length > 0 then applyPaginateAliases a doc else doc
    | none => doc
  formatResultDoc d

/-- The sort specification of a request: `if (options.sortBy)` parses the
string, so a missing or *falsy* (empty) `sortBy` takes the `else` branch
and the default sort `{createdAt: -1}`. -/
def sortOf (options : PaginateOptions) : Except String (List (String × Int)) :=
  match options.sortBy with
  | some s => if s == "" then Except.ok [("createdAt", -1)] else parseSortBy s
  | none => Except.ok [("createdAt", -1)]

/-- The computation `(options.page && parseInt(...)) || 1` (a falsy page is 1;
`parseInt` round-trips the integers the model admits). -/
def pageOf (options : PaginateOptions) : Int :=
  match options.page with
  | some p => if p = 0 then 1 else p
  | none => 1

/-- The effective limit: `MAX_SAFE_INTEGER` for the `page === -1` sentinel,
otherwise the positive requested limit or the default 10.  Always positive,
hence a `Nat`. -/
def limitOf (options : PaginateOptions) (page : Int) : Nat :=
  if page = -1 then maxSafeInteger
  else match options.limit with
    | some l => if l > 0 then l.toNat else 10
    | none => 10

/-- The skip: 0 for the sentinel, else `(page - 1) * limit`. -/
def skipOf (page : Int) (limit : Nat) : Int :=
  if page = -1 then 0 else (page - 1) * (limit : Int)

/-- The aggregation-mode branch of `schema.statics.paginate`
(src/paginate.ts lines 163-203): the count pipeline is awaited, then the
data pipeline; `totalResults` reads 0 off an empty count result;
`totalPages = Math.ceil(totalResults / limit)` with no `page === -1`
special case; each fetched document gets the alias rules and the identity
rename. -/
def paginateAgg (options : PaginateOptions) (store : Store)
    (shuffle : List Val → List Val) (pipeline : List Stage)
    (sort : List (String × Int)) : List StoreOp × Except String QueryResult :=
  let page := pageOf options
  let limit := limitOf options page
  let skip := skipOf page limit
  let totalResults : Nat := store.aggCountResult.getD 0
  let totalPages : Nat := ceilDivNat totalResults limit
  let results := if options.isShuffleRecord then shuffle store.aggDocs
    else store.aggDocs
  let formattedResults := results.map (formatAggDoc options.aliasSpec)
  ([StoreOp.aggregateCount pipeline,
    StoreOp.aggregate pipeline sort skip (limit : Int)],
   .ok (buildResult formattedResults (totalResults : Int) (totalPages : Int)
     page (limit : Int)))

/-- The find-mode branch of `schema.statics.paginate` (src/paginate.ts
lines 205-259): count and fetch are issued concurrently (count first in the
source text), the fetch carries the projection (`options.fields ? … : []`,
so a falsy — empty — fields string attaches none) and the populate plans,
`totalPages` special-cases `page === -1`, and each document gets the
identity rename. -/
def paginateFind (filter : Val) (options : PaginateOptions) (store : Store)
    (shuffle : List Val → List Val) (sort : List (String × Int)) :
    List StoreOp × Except String QueryResult :=
  let page := pageOf options
  let limit := limitOf options page
  let skip := skipOf page limit
  let selectFields := match options.fields with
    | some f => if f == "" then [] else jsSplitC ',' f
    | none => []
  let plans := buildPopulatePlans (options.populate.getD "")
  let select : Option String :=
    if selectFields.length > 0 then
      some (String.intercalate " " selectFields)
    else none
  let totalResults : Nat := store.countResult
  let totalPages : Nat :=
    if page = -1 then 1 else ceilDivNat totalResults limit
  let results := if options.isShuffleRecord then shuffle store.findDocs
    else store.findDocs
  let formattedResults := results.map formatResultDoc
  ([StoreOp.countDocuments filter,
    StoreOp.find filter sort skip (limit : Int) select plans],
   .ok (buildResult formattedResults (totalResults : Int) (totalPages : Int)
     page (limit : Int)))

/-- The entry point `schema.statics.paginate` (src/paginate.ts lines 122-260) as a pure
function of the request, the store's responses, and a shuffling permutation
(the `Math.random` comparator is nondeterministic; no claim depends on it).
Returns the Document Store operations issued, in order, and either the
thrown error or the Query Result Envelope.  A thrown sort error precedes
every store operation, which is visible as the empty operation list. -/
def paginate (filter : Val) (options : PaginateOptions) (store : Store)
    (shuffle : List Val → List Val) :
    List StoreOp × Except String QueryResult :=
  match sortOf options with
  | .error e => ([], .error e)
  | .ok sort =>
      match options.aggregation with
      | some pipeline => paginateAgg options store shuffle pipeline sort
      | none => paginateFind filter options store shuffle sort

/-! ## Association-list lemmas -/

theorem find?_map_set_self {α : Type} (l : List (String × α)) (k : String)
    (v : α) :
    (l.map (fun p => if p.1 == k then (k, v) else p)).find?
        (fun p => p.1 == k) =
      if l.any (fun p => p.1 == k) then some (k, v) else none := by
  induction l with
  | nil => simp
  | cons p rest ih =>
      simp only [List.map_cons, List.any_cons]
      by_cases h : p.1 = k
      · rw [if_pos (by simp [h]), List.find?_cons_of_pos _ (by simp)]
        simp [h]
      · rw [if_neg (by simp [h]), List.find?_cons_of_neg _ (by simp [h]), ih]
        have hb : (p.1 == k) = false := by simp [h]
        by_cases hr : (rest.any fun p => p.1 == k) = true
        · rw [if_pos hr, if_pos (by rw [hb, Bool.false_or]; exact hr)]
        · rw [if_neg hr, if_neg (by rw [hb, Bool.false_or]; exact hr)]

theorem find?_map_set_ne {α : Type} (l : List (String × α)) (k k' : String)
    (v : α) (h : k' ≠ k) :
    (l.map (fun p => if p.1 == k then (k, v) else p)).find?
        (fun p => p.1 == k') = l.find? (fun p => p.1 == k') := by
  induction l with
  | nil => simp
  | cons p rest ih =>
      simp only [List.map_cons]
      by_cases hp : p.1 = k
      · rw [if_pos (by simp [hp]),
          List.find?_cons_of_neg _ (by simp [Ne.symm h]),
          List.find?_cons_of_neg _ (by simp [hp, Ne.symm h])]
        exact ih
      · rw [if_neg (by simp [hp])]
        by_cases hp' : p.1 = k'
        · rw [List.find?_cons_of_pos _ (by simp [hp']),
            List.find?_cons_of_pos _ (by simp [hp'])]
        · rw [List.find?_cons_of_neg _ (by simp [hp']),
            List.find?_cons_of_neg _ (by simp [hp'])]
          exact ih

theorem assocLookup_set_self {α : Type} (l : List (String × α)) (k : String)
    (v : α) : assocLookup (assocSet l k v) k = some v := by
  unfold assocSet assocLookup
  by_cases h : l.any (fun p => p.1 == k)
  · rw [if_pos h, find?_map_set_self, if_pos h]
    rfl
  · rw [if_neg h, List.find?_append]
    have hn : l.find? (fun p => p.1 == k) = none := by
      rw [List.find?_eq_none]
      intro x hx hc
      exact h (List.any_eq_true.mpr ⟨x, hx, hc⟩)
    rw [hn, List.find?_cons_of_pos _ (by simp)]
    rfl

theorem assocLookup_set_ne {α : Type} (l : List (String × α)) (k k' : String)
    (v : α) (h : k' ≠ k) :
    assocLookup (assocSet l k v) k' = assocLookup l k' := by
  unfold assocSet assocLookup
  by_cases ha : l.any (fun p => p.1 == k)
  · rw [if_pos ha, find?_map_set_ne _ _ _ _ h]
  · rw [if_neg ha, List.find?_append,
      List.find?_cons_of_neg _ (by simp [Ne.symm h])]
    simp

theorem assocLookup_erase_self {α : Type} (l : List (String × α))
    (k : String) : assocLookup (eraseKey l k) k = none := by
  unfold eraseKey assocLookup
  rw [Option.map_eq_none', List.find?_eq_none]
  intro x hx
  have := List.of_mem_filter hx
  simp only [Bool.not_eq_true'] at this
  simp [this]

theorem assocLookup_erase_ne {α : Type} (l : List (String × α))
    (k k' : String) (h : k' ≠ k) :
    assocLookup (eraseKey l k) k' = assocLookup l k' := by
  unfold eraseKey assocLookup
  induction l with
  | nil => simp
  | cons p rest ih =>
      by_cases hp : p.1 = k
      · rw [List.filter_cons_of_neg (by simp [hp]),
          List.find?_cons_of_neg _ (by simp [hp, Ne.symm h])]
        exact ih
      · rw [List.filter_cons_of_pos (by simp [hp])]
        by_cases hp' : p.1 = k'
        · rw [List.find?_cons_of_pos _ (by simp [hp']),
            List.find?_cons_of_pos _ (by simp [hp'])]
        · rw [List.find?_cons_of_neg _ (by simp [hp']),
            List.find?_cons_of_neg _ (by simp [hp'])]
          exact ih

theorem objLookupJS_set_self (l : Fields) (k : String) (v : Option Val) :
    objLookupJS (assocSet l k v) k = v := by
  unfold objLookupJS
  rw [assocLookup_set_self]
  cases v <;> rfl

theorem objLookupJS_set_ne (l : Fields) (k k' : String) (v : Option Val)
    (h : k' ≠ k) : objLookupJS (assocSet l k v) k' = objLookupJS l k' := by
  unfold objLookupJS
  rw [assocLookup_set_ne _ _ _ _ h]

theorem objLookupJS_erase_self (l : Fields) (k : String) :
    objLookupJS (eraseKey l k) k = none := by
  unfold objLookupJS
  rw [assocLookup_erase_self]
  rfl

theorem objLookupJS_erase_ne (l : Fields) (k k' : String) (h : k' ≠ k) :
    objLookupJS (eraseKey l k) k' = objLookupJS l k' := by
  unfold objLookupJS
  rw [assocLookup_erase_ne _ _ _ h]

/-! ## Claim C1: the `::` alias round trip -/

/-- C1 counterexample: the claim asserts the `a::b` round trip for both
plugins that accept alias rules, but the toJSON transform's
`parseAliasString` splits on single `:`, so the rule `a::b` parses with an
empty destination and is dropped.  On the document `{a: 1}` with alias
string `"a::b"`, the transform leaves `a` in place and creates no `b`:
reading `b` afterwards is absent rather than the pre-rename value `1`, and
`a` is not absent. -/
theorem c1_counterexample :
    transform [] (vobj []) [("a", some (vnum 1))]
        { aliasSpec := some (AliasSpec.str "a::b") } =
      some [("a", some (vnum 1)), ("id", none)]
    ∧ getNestedValue (vobj [("a", some (vnum 1)), ("id", none)]) ["b"] = none
    ∧ getNestedValue (vobj [("a", some (vnum 1)), ("id", none)]) ["a"] =
        some (vnum 1)
    ∧ (none : Option Val) ≠ some (vnum 1) :=
  ⟨rfl, rfl, rfl, by simp⟩

/-! ## Claim C2: the page = -1 envelope -/

/-- C2 counterexample: in aggregation mode with `page = -1` and an empty
count result (`totalResults = 0`), `totalPages` is computed as
`Math.ceil(0 / MAX_SAFE_INTEGER) = 0`, not the claimed `1` (the find-mode
branch special-cases `page === -1`; the aggregation branch does not). -/
theorem c2_counterexample :
    (paginate (vobj []) { page := some (-1), aggregation := some [] }
        ({} : Store) id).2 =
      Except.ok { results := [], page := 1, limit := 0, totalPages := 0,
                  totalResults := 0 }
    ∧ (0 : Int) ≠ 1 :=
  ⟨rfl, by decide⟩

/-! ## Claim C3: array handling of the deep reads -/

/-- C3 counterexample: the claim asserts that every deep-read accessor
returns the *first* non-null, non-absent result at an array step, but
toJSON's `getNestedValue` collects *all* defined values: on
`{a: [{b: 1}, {b: 2}]}` at path `a.b` it returns the array `[1, 2]`, not
the first match `1`. -/
theorem c3_counterexample :
    getNestedValue
        (vobj [("a", some (varr [vobj [("b", some (vnum 1))],
                                 vobj [("b", some (vnum 2))]]))])
        ["a", "b"] =
      some (varr [vnum 1, vnum 2])
    ∧ some (varr [vnum 1, vnum 2]) ≠ some (vnum 1) :=
  ⟨rfl, by simp⟩

/-- C3 amended: what the two deep-read accessors actually do.  Both reads
compose along the path and propagate absence instead of erroring.  At an
array step, paginate's `getDeepValue` maps only the *next* segment across
the elements and continues with the first value that is neither `undefined`
nor `null`, while toJSON's `getNestedValue` continues with the array of
*all* defined values (nulls included). -/
theorem c3_amended_deep_read_array_policy :
    (∀ (c : Option Val) (p q : List String),
       getDeepGo c (p ++ q) = getDeepGo (getDeepGo c p) q)
    ∧ (∀ p : List String, getDeepGo none p = none)
    ∧ (∀ (xs : List Val) (k : String) (ks : List String),
         getDeepGo (some (varr xs)) (k :: ks) =
           getDeepGo (firstMatch (xs.map (fun item => jsGet item k))) ks)
    ∧ (∀ (cur : Val) (p q : List String),
         getNestedLoop cur (p ++ q) =
           (getNestedLoop cur p).bind (fun v => getNestedLoop v q))
    ∧ (∀ (xs : List Val) (k : String) (ks : List String),
         getNestedLoop (varr xs) (k :: ks) =
           getNestedLoop (varr (xs.filterMap (fun item => jsGet item k))) ks) := by
  refine ⟨?_, ?_, ?_, ?_, ?_⟩
  · intro c p q
    exact List.foldl_append stepDeep c p q
  · intro p
    induction p with
    | nil => rfl
    | cons k ks ih => exact ih
  · intro xs k ks
    rfl
  · intro cur p q
    induction p generalizing cur with
    | nil => cases cur <;> rfl
    | cons k ks ih =>
        cases cur with
        | varr xs => exact ih _
        | vnull => simp [getNestedLoop, jsGet]
        | vbool b => simp [getNestedLoop, jsGet]
        | vnum n => simp [getNestedLoop, jsGet]
        | vstr s => simp [getNestedLoop, jsGet]
        | vobj fs =>
            have e : ∀ rest, getNestedLoop (vobj fs) (k :: rest) =
                match jsGet (vobj fs) k with
                | none => none
                | some v => getNestedLoop v rest := fun rest => rfl
            rw [show k :: ks ++ q = k :: (ks ++ q) from rfl, e (ks ++ q), e ks]
            cases jsGet (vobj fs) k with
            | none => rfl
            | some v => exact ih v
  · intro xs k ks
    rfl

/-! ## Claim C4: the hyphenated populate directive -/

/-- C4 counterexample: the claim asserts that `"a-b,c:x,y"` builds a node
for relation `a` with two sibling children, but no code in the plugin
treats `-` specially: the directive builds exactly one leaf node whose path
is the literal string `a-b,c` (and whose `select` is `x y`), so the node's
relation is not `a` and it has no children. -/
theorem c4_counterexample :
    buildPopulatePlans "a-b,c:x,y" = [PopOpt.mk "a-b,c" "x y" none]
    ∧ "a-b,c" ≠ "a" :=
  ⟨rfl, by decide⟩

/-- C4 amended: for any filter, store responses and shuffle, a find-mode
request with populate directive `"a-b,c:x,y"` attaches to the fetch exactly
one populate plan node, childless, with the literal path `a-b,c` and the
projection `x y`; the hyphen-sibling grammar of the spec is not
implemented. -/
theorem c4_amended_populate_plan (filter : Val) (store : Store)
    (shuffle : List Val → List Val) :
    (paginate filter { populate := some "a-b,c:x,y" } store shuffle).1 =
      [StoreOp.countDocuments filter,
       StoreOp.find filter [("createdAt", -1)] 0 10 none
         [PopOpt.mk "a-b,c" "x y" none]] :=
  rfl

/-! ## Claim C5: set-then-get round trip -/

/-- The claim C5 precondition exactly as stated: no intermediate segment of
the path resolves to an array in the existing document (walking the existing
values; absent intermediates impose nothing). -/
def noArrayFanGo : List String → Val → Bool
  | [], _ => true
  | k :: rest, vobj fs =>
      if rest.isEmpty then true
      else
        match objLookupJS fs k with
        | some (varr _) => false
        | some w => noArrayFanGo rest w
        | none => true
  | _ :: _, _ => true
termination_by structural p v => p

/-- The claim C5 precondition with the document first. -/
def noArrayFan (v : Val) (p : List String) : Bool := noArrayFanGo p v

/-- C5 counterexample: on `{a: 5}` with path `a.b`, no intermediate segment
resolves to an array — the claimed precondition holds — yet `setNestedValue`
descends into the truthy number `5` and its next property assignment throws
(`none`); the set-then-get composite is absent, not the set value `1`. -/
theorem c5_counterexample :
    noArrayFan (vobj [("a", some (vnum 5))]) ["a", "b"] = true
    ∧ (setNestedValue (vobj [("a", some (vnum 5))]) ["a", "b"] (vnum 1)).bind
        (fun d => getNestedValue d ["a", "b"]) = none
    ∧ (none : Option Val) ≠ some (vnum 1) :=
  ⟨rfl, rfl, by simp⟩

/-- The precondition the round trip actually needs: the root is an object
and every intermediate segment that resolves to an existing value resolves
to an object or to a falsy value (which `setNestedValue` replaces by a fresh
`{}`); arrays and truthy non-objects are excluded. -/
def setSafeGo : List String → Val → Bool
  | [], vobj _ => true
  | [], _ => false
  | k :: rest, vobj fs =>
      if rest.isEmpty then true
      else
        match objLookupJS fs k with
        | some (varr _) => false
        | some (vobj gs) => setSafeGo rest (vobj gs)
        | some w => !jsTruthy w
        | none => true
  | _ :: _, _ => false
termination_by structural p v => p

/-- The amended C5 precondition with the document first. -/
def setSafe (v : Val) (p : List String) : Bool := setSafeGo p v

/-! ## Claim C9: the password key -/

/-- C9 counterexample: `delete ret.password` runs *before* alias application,
so an alias rule whose destination is `password` re-creates the key: with
alias `"secret:password"` on `{secret: "x"}` the output has a top-level
`password` key (the claim's own parenthetical has the order backwards). -/
theorem c9_counterexample :
    transform [] (vobj []) [("secret", some (vstr "x"))]
        { aliasSpec := some (AliasSpec.str "secret:password") } =
      some [("id", none), ("password", some (vstr "x"))]
    ∧ hasKeyF [("id", none), ("password", some (vstr "x"))] "password" = true :=
  ⟨rfl, rfl⟩

/-! ## Claim C10: the timestamp keys -/

/-- C10 counterexample: alias application runs after the timestamp deletes,
so with `includeTimeStamps` false and alias `"foo:createdAt"` on `{foo: 1}`
the output still has a top-level `createdAt` key, contradicting the claimed
unconditional removal. -/
theorem c10_counterexample :
    transform [] (vobj []) [("foo", some (vnum 1))]
        { includeTimeStamps := false,
          aliasSpec := some (AliasSpec.str "foo:createdAt") } =
      some [("id", none), ("createdAt", some (vnum 1))]
    ∧ hasKeyF [("id", none), ("createdAt", some (vnum 1))] "createdAt" = true :=
  ⟨rfl, rfl⟩

/-! ## Claim C8: malformed sort directives -/

theorem parseSortGo_error (ds : List String) (acc : List (String × Int))
    (h : (ds.any fun d => (jsSplitC ':' d).headD "" == "") = true) :
    parseSortGo ds acc = .error sortErrorMsg := by
  induction ds generalizing acc with
  | nil => simp at h
  | cons d rest ih =>
      rw [List.any_cons] at h
      by_cases hd : (jsSplitC ':' d).headD "" = ""
      · unfold parseSortGo
        rw [if_pos (by simpa using hd)]
      · have hr : (rest.any fun d => (jsSplitC ':' d).headD "" == "") =
            true := by
          rcases Bool.or_eq_true_iff.mp h with h1 | h1
          · exact absurd (by simpa using h1) hd
          · exact h1
        unfold parseSortGo
        rw [if_neg (by simpa using hd)]
        split
        · exact ih _ hr
        · split
          · exact ih _ hr
          · exact ih _ hr

theorem paginate_of_sort_error (filter : Val) (options : PaginateOptions)
    (store : Store) (shuffle : List Val → List Val) (e : String)
    (h : sortOf options = .error e) :
    paginate filter options store shuffle = ([], .error e) := by
  unfold paginate
  rw [h]

/-- C8 counterexample: `sortBy = ""` splits into a single empty
comma-separated entry whose key is empty — inside the claim's class — yet
the program's `if (options.sortBy)` treats the falsy empty string like a
missing option: the default `{createdAt: -1}` sort is used, both Document
Store operations are issued, and no error is raised. -/
theorem c8_counterexample :
    ((jsSplitC ',' "").any fun d => (jsSplitC ':' d).headD "" == "") = true
    ∧ paginate (vobj []) { sortBy := some "" } ({} : Store) id =
        ([StoreOp.countDocuments (vobj []),
          StoreOp.find (vobj []) [("createdAt", -1)] 0 10 none []],
         Except.ok { results := [], page := 1, limit := 10, totalPages := 0,
                     totalResults := 0 })
    ∧ ([StoreOp.countDocuments (vobj []),
        StoreOp.find (vobj []) [("createdAt", -1)] 0 10 none []] :
        List StoreOp) ≠ [] :=
  ⟨rfl, rfl, by simp⟩

/-- C8 amended: a *non-empty* sortBy string containing a directive whose
key is empty after the splits (such as `":desc"` or an empty comma entry)
makes the paginate entry point throw the caller-visible sort error, and no
Document Store operation is issued (the operation trace is empty), in
particular neither count nor find nor aggregate.  An empty sortBy string is
falsy and takes the default-sort branch instead. -/
theorem c8_amended_sort_error_before_io (filter : Val)
    (options : PaginateOptions) (store : Store)
    (shuffle : List Val → List Val) (s : String)
    (hs : options.sortBy = some s) (hs0 : s ≠ "")
    (he : ((jsSplitC ',' s).any fun d => (jsSplitC ':' d).headD "" == "") =
      true) :
    paginate filter options store shuffle = ([], .error sortErrorMsg) := by
  apply paginate_of_sort_error
  unfold sortOf
  rw [hs]
  show (if s == "" then Except.ok [("createdAt", -1)] else parseSortBy s) =
    Except.error sortErrorMsg
  rw [if_neg (by simp [hs0])]
  exact parseSortGo_error _ _ he

/-- Witness for the amended C8 at the concrete directive `":desc"`. -/
theorem c8_amended_sort_error_before_io_witness :
    (({ sortBy := some ":desc" } : PaginateOptions).sortBy = some ":desc")
    ∧ (":desc" ≠ "")
    ∧ (((jsSplitC ',' ":desc").any fun d =>
         (jsSplitC ':' d).headD "" == "") = true)
    ∧ paginate (vobj []) { sortBy := some ":desc" } ({} : Store) id =
        ([], .error sortErrorMsg) :=
  ⟨rfl, by decide, rfl,
    c8_amended_sort_error_before_io (vobj []) _ ({} : Store) id ":desc" rfl
      (by decide) rfl⟩

/-! ## Claim C2, amended -/

theorem paginateFind_snd (filter : Val) (options : PaginateOptions)
    (store : Store) (shuffle : List Val → List Val)
    (sort : List (String × Int)) :
    (paginateFind filter options store shuffle sort).2 =
      Except.ok (buildResult
        ((if options.isShuffleRecord then shuffle store.findDocs
          else store.findDocs).map formatResultDoc)
        (store.countResult : Int)
        ((if pageOf options = -1 then 1
          else ceilDivNat store.countResult
            (limitOf options (pageOf options)) : Nat) : Int)
        (pageOf options) ((limitOf options (pageOf options) : Nat) : Int)) :=
  rfl

theorem paginateAgg_snd (options : PaginateOptions) (store : Store)
    (shuffle : List Val → List Val) (pipeline : List Stage)
    (sort : List (String × Int)) :
    (paginateAgg options store shuffle pipeline sort).2 =
      Except.ok (buildResult
        ((if options.isShuffleRecord then shuffle store.aggDocs
          else store.aggDocs).map (formatAggDoc options.aliasSpec))
        ((store.aggCountResult.getD 0 : Nat) : Int)
        ((ceilDivNat (store.aggCountResult.getD 0)
          (limitOf options (pageOf options)) : Nat) : Int)
        (pageOf options) ((limitOf options (pageOf options) : Nat) : Int)) :=
  rfl

theorem buildResult_limit (rs : List Val) (tr tp p l : Int) :
    (buildResult rs tr tp p l).limit = if p = -1 then tr else l := rfl

theorem buildResult_totalResults (rs : List Val) (tr tp p l : Int) :
    (buildResult rs tr tp p l).totalResults = tr := rfl

theorem buildResult_totalPages (rs : List Val) (tr tp p l : Int) :
    (buildResult rs tr tp p l).totalPages = tp := rfl

/-- C2 amended: with `page = -1`, the envelope always reports
`limit = totalResults`, in both modes and for every `totalResults ≥ 0`;
`totalPages` is 1 in find mode, while in aggregation mode it is
`ceil(totalResults / MAX_SAFE_INTEGER)`: 0 when `totalResults = 0` and 1
for `1 ≤ totalResults ≤ MAX_SAFE_INTEGER`. -/
theorem c2_amended_page_minus_one (filter : Val) (options : PaginateOptions)
    (store : Store) (shuffle : List Val → List Val) (env : QueryResult)
    (hpage : options.page = some (-1))
    (henv : (paginate filter options store shuffle).2 = Except.ok env) :
    env.limit = env.totalResults
    ∧ (options.aggregation = none → env.totalPages = 1)
    ∧ (∀ pipeline, options.aggregation = some pipeline →
        (store.aggCountResult.getD 0 = 0 → env.totalPages = 0)
        ∧ (1 ≤ store.aggCountResult.getD 0 →
            store.aggCountResult.getD 0 ≤ maxSafeInteger →
            env.totalPages = 1)) := by
  have hp : pageOf options = -1 := by
    unfold pageOf
    rw [hpage]
    norm_num
  have hl : limitOf options (pageOf options) = maxSafeInteger := by
    rw [hp]
    unfold limitOf
    rw [if_pos rfl]
  have hm : 1 ≤ maxSafeInteger := by
    unfold maxSafeInteger
    norm_num
  unfold paginate at henv
  cases hs : sortOf options with
  | error e =>
      rw [hs] at henv
      exact absurd henv (by simp)
  | ok sort =>
      rw [hs] at henv
      cases hagg : options.aggregation with
      | none =>
          rw [hagg, paginateFind_snd] at henv
          have henv' := (Except.ok.injEq _ _).mp henv.symm
          subst henv'
          refine ⟨?_, ?_, ?_⟩
          · rw [buildResult_limit, buildResult_totalResults, hp, if_pos rfl]
          · intro _
            rw [buildResult_totalPages, hp, if_pos rfl]
            rfl
          · intro pipeline hpp
            exact Option.noConfusion hpp
      | some pipeline =>
          rw [hagg, paginateAgg_snd] at henv
          have henv' := (Except.ok.injEq _ _).mp henv.symm
          subst henv'
          refine ⟨?_, ?_, ?_⟩
          · rw [buildResult_limit, buildResult_totalResults, hp, if_pos rfl]
          · intro hnone
            exact Option.noConfusion hnone
          · intro pl hpl
            constructor
            · intro h0
              rw [buildResult_totalPages, hl, h0]
              have hc : ceilDivNat 0 maxSafeInteger = 0 := by
                unfold ceilDivNat
                exact Nat.div_eq_of_lt (by omega)
              rw [hc]
              rfl
            · intro h1 h2
              rw [buildResult_totalPages, hl]
              have hc : ceilDivNat (store.aggCountResult.getD 0)
                  maxSafeInteger = 1 := by
                unfold ceilDivNat
                exact Nat.div_eq_of_lt_le (by omega) (by omega)
              rw [hc]
              rfl

/-- Witness for the amended C2, find mode with an empty store:
the envelope is `{results := [], page := 1, limit := 0, totalPages := 1,
totalResults := 0}` and its limit equals its totalResults. -/
theorem c2_amended_page_minus_one_witness :
    ({ results := [], page := 1, limit := 0, totalPages := 1,
       totalResults := 0 } : QueryResult).limit =
      ({ results := [], page := 1, limit := 0, totalPages := 1,
         totalResults := 0 } : QueryResult).totalResults :=
  (c2_amended_page_minus_one (vobj []) { page := some (-1) } ({} : Store) id
    { results := [], page := 1, limit := 0, totalPages := 1,
      totalResults := 0 } rfl rfl).1

/-! ## Claim C1, amended -/

theorem getNestedLoop_nil (cur : Val) : getNestedLoop cur [] = some cur := by
  cases cur <;> rfl

theorem getNestedLoop_obj (fs : Fields) (k : String) (ks : List String) :
    getNestedLoop (vobj fs) (k :: ks) =
      match objLookupJS fs k with
      | none => none
      | some v => getNestedLoop v ks := rfl

/-- C1 amended: the `a::b` rename round trip holds in the aggregation-mode
pagination path for single-segment keys `a ≠ b` with `a` present holding `v`
(scalar or array): after `renameNestedField`, deep-get at `b` returns the
pre-rename deep-get at `a`, and deep-get at `a` is absent.  The toJSON
transform drops `a::b` rules; its rename form is the single-colon `a:b`,
whose `renameDeepKey` satisfies the same round trip for the same keys. -/
theorem c1_amended_alias_rename_roundtrip (fs : Fields) (a b : String)
    (v : Val) (ha : splitPath a = [a]) (hb : splitPath b = [b]) (hne : a ≠ b)
    (hv : objLookupJS fs a = some v) :
    (getDeepValue (vobj fs) a = some v
     ∧ getDeepValue (renameNestedField (vobj fs) a b) b = some v
     ∧ getDeepValue (renameNestedField (vobj fs) a b) a = none)
    ∧ (getNestedValue (vobj fs) [a] = some v
       ∧ (renameDeepKey (vobj fs) a b).map
           (fun r => (getNestedValue r [b], getNestedValue r [a])) =
         some (some v, none)) := by
  have hrn : renameNestedField (vobj fs) a b =
      vobj (eraseKey (assocSet fs b (some v)) a) := by
    unfold renameNestedField
    rw [ha]
    show (match objLookupJS fs a with
          | some v => vobj (eraseKey (assocSet fs b (some v)) a)
          | none => vobj fs) = _
    rw [hv]
  have hget_b : objLookupJS (eraseKey (assocSet fs b (some v)) a) b =
      some v := by
    rw [objLookupJS_erase_ne _ _ _ (Ne.symm hne), objLookupJS_set_self]
  have hget_a : objLookupJS (eraseKey (assocSet fs b (some v)) a) a =
      none := objLookupJS_erase_self _ _
  have hgn : getNestedValue (vobj fs) [a] = some v := by
    show (match objLookupJS fs a with
          | none => none
          | some v => getNestedLoop v []) = some v
    rw [hv]
    exact getNestedLoop_nil v
  refine ⟨⟨?_, ?_, ?_⟩, hgn, ?_⟩
  · unfold getDeepValue
    rw [ha]
    exact hv
  · unfold getDeepValue
    rw [hb, hrn]
    exact hget_b
  · unfold getDeepValue
    rw [ha, hrn]
    exact hget_a
  · have hset : setNestedValue (vobj fs) [b] v =
        some (vobj (assocSet fs b (some v))) := rfl
    have hrd : renameDeepKey (vobj fs) a b =
        some (vobj (eraseKey (assocSet fs b (some v)) a)) := by
      unfold renameDeepKey
      rw [ha, hb]
      show (match getNestedValue (vobj fs) [a] with
            | none => some (vobj fs)
            | some value =>
                Option.map (fun r => deleteAtPath r [a])
                  (setNestedValue (vobj fs) [b] value)) = _
      rw [hgn]
      show Option.map (fun r => deleteAtPath r [a])
        (setNestedValue (vobj fs) [b] v) = _
      rw [hset]
      rfl
    have h1 : getNestedValue (vobj (eraseKey (assocSet fs b (some v)) a))
        [b] = some v := by
      show (match objLookupJS (eraseKey (assocSet fs b (some v)) a) b with
            | none => none
            | some v => getNestedLoop v []) = some v
      rw [hget_b]
      exact getNestedLoop_nil v
    have h2 : getNestedValue (vobj (eraseKey (assocSet fs b (some v)) a))
        [a] = none := by
      show (match objLookupJS (eraseKey (assocSet fs b (some v)) a) a with
            | none => none
            | some v => getNestedLoop v []) = none
      rw [hget_a]
    rw [hrd, Option.map_some', h1, h2]

/-- Witness for the amended C1 with an array value at `a`. -/
theorem c1_amended_alias_rename_roundtrip_witness :
    getDeepValue
        (renameNestedField (vobj [("a", some (varr [vnum 1, vnum 2]))])
          "a" "b") "b" =
      some (varr [vnum 1, vnum 2]) :=
  ((c1_amended_alias_rename_roundtrip [("a", some (varr [vnum 1, vnum 2]))]
      "a" "b" (varr [vnum 1, vnum 2]) rfl rfl (by decide) rfl).1).2.1

/-! ## Claim C5, amended -/

theorem setSafeGo_empty_obj (p : List String) :
    setSafeGo p (vobj []) = true := by
  cases p with
  | nil => rfl
  | cons k rest =>
      unfold setSafeGo
      by_cases h : rest.isEmpty
      · rw [if_pos h]
      · rw [if_neg h]
        rfl

theorem setLoop_cons2 (gs : Fields) (k k2 : String) (rest2 : List String)
    (v : Val) :
    setLoop (vobj gs) (k :: k2 :: rest2) v =
      match objLookupJS gs k with
      | some (varr _) => some (vobj gs)
      | some (vobj gs0) =>
          (setLoop (vobj gs0) (k2 :: rest2) v).map
            (fun w => vobj (assocSet gs k (some w)))
      | some w =>
          if jsTruthy w then none
          else (setLoop (vobj []) (k2 :: rest2) v).map
            (fun w' => vobj (assocSet gs k (some w')))
      | none =>
          (setLoop (vobj []) (k2 :: rest2) v).map
            (fun w' => vobj (assocSet gs k (some w'))) := rfl

theorem setLoop_roundtrip (p : List String) (gs : Fields) (v : Val)
    (hp : p ≠ []) (hsafe : setSafeGo p (vobj gs) = true) :
    ∃ gs', setLoop (vobj gs) p v = some (vobj gs')
      ∧ getNestedLoop (vobj gs') p = some v := by
  induction p generalizing gs with
  | nil => exact absurd rfl hp
  | cons k rest ih =>
      cases rest with
      | nil =>
          refine ⟨assocSet gs k (some v), rfl, ?_⟩
          rw [getNestedLoop_obj, objLookupJS_set_self]
          exact getNestedLoop_nil v
      | cons k2 rest2 =>
          unfold setSafeGo at hsafe
          rw [if_neg (by simp)] at hsafe
          have hne : (k2 :: rest2) ≠ ([] : List String) := by simp
          cases hk : objLookupJS gs k with
          | none =>
              obtain ⟨gs', h1, h2⟩ :=
                ih [] hne (setSafeGo_empty_obj (k2 :: rest2))
              refine ⟨assocSet gs k (some (vobj gs')), ?_, ?_⟩
              · rw [setLoop_cons2, hk]
                show (setLoop (vobj []) (k2 :: rest2) v).map
                  (fun w' => vobj (assocSet gs k (some w'))) = _
                rw [h1]
                rfl
              · rw [getNestedLoop_obj, objLookupJS_set_self]
                exact h2
          | some w =>
              rw [hk] at hsafe
              cases w with
              | varr xs => exact Bool.noConfusion hsafe
              | vobj hs =>
                  obtain ⟨gs', h1, h2⟩ := ih hs hne hsafe
                  refine ⟨assocSet gs k (some (vobj gs')), ?_, ?_⟩
                  · rw [setLoop_cons2, hk]
                    show (setLoop (vobj hs) (k2 :: rest2) v).map
                      (fun w => vobj (assocSet gs k (some w))) = _
                    rw [h1]
                    rfl
                  · rw [getNestedLoop_obj, objLookupJS_set_self]
                    exact h2
              | vnull =>
                  obtain ⟨gs', h1, h2⟩ :=
                    ih [] hne (setSafeGo_empty_obj (k2 :: rest2))
                  refine ⟨assocSet gs k (some (vobj gs')), ?_, ?_⟩
                  · rw [setLoop_cons2, hk]
                    show (setLoop (vobj []) (k2 :: rest2) v).map
                      (fun w' => vobj (assocSet gs k (some w'))) = _
                    rw [h1]
                    rfl
                  · rw [getNestedLoop_obj, objLookupJS_set_self]
                    exact h2
              | vbool b =>
                  have hsafe' : (!jsTruthy (vbool b)) = true := hsafe
                  have hb : b = false := by simpa [jsTruthy] using hsafe'
                  subst hb
                  obtain ⟨gs', h1, h2⟩ :=
                    ih [] hne (setSafeGo_empty_obj (k2 :: rest2))
                  refine ⟨assocSet gs k (some (vobj gs')), ?_, ?_⟩
                  · rw [setLoop_cons2, hk]
                    show (setLoop (vobj []) (k2 :: rest2) v).map
                      (fun w' => vobj (assocSet gs k (some w'))) = _
                    rw [h1]
                    rfl
                  · rw [getNestedLoop_obj, objLookupJS_set_self]
                    exact h2
              | vnum n =>
                  have hsafe' : (!jsTruthy (vnum n)) = true := hsafe
                  have hn : n = 0 := by simpa [jsTruthy] using hsafe'
                  subst hn
                  obtain ⟨gs', h1, h2⟩ :=
                    ih [] hne (setSafeGo_empty_obj (k2 :: rest2))
                  refine ⟨assocSet gs k (some (vobj gs')), ?_, ?_⟩
                  · rw [setLoop_cons2, hk]
                    show (setLoop (vobj []) (k2 :: rest2) v).map
                      (fun w' => vobj (assocSet gs k (some w'))) = _
                    rw [h1]
                    rfl
                  · rw [getNestedLoop_obj, objLookupJS_set_self]
                    exact h2
              | vstr s =>
                  have hsafe' : (!jsTruthy (vstr s)) = true := hsafe
                  have hs' : s = "" := by simpa [jsTruthy] using hsafe'
                  subst hs'
                  obtain ⟨gs', h1, h2⟩ :=
                    ih [] hne (setSafeGo_empty_obj (k2 :: rest2))
                  refine ⟨assocSet gs k (some (vobj gs')), ?_, ?_⟩
                  · rw [setLoop_cons2, hk]
                    show (setLoop (vobj []) (k2 :: rest2) v).map
                      (fun w' => vobj (assocSet gs k (some w'))) = _
                    rw [h1]
                    rfl
                  · rw [getNestedLoop_obj, objLookupJS_set_self]
                    exact h2

/-- C5 amended: set-then-get round-trips on a non-empty path over an object
document, provided every intermediate segment that resolves to an existing
value resolves to an object or to a falsy value — the claim's precondition
(no array intermediate) is not enough, because a *truthy non-object*
intermediate makes `setNestedValue` throw. -/
theorem c5_amended_set_get_roundtrip (fs : Fields) (p : List String)
    (v : Val) (hp : p ≠ []) (hs : setSafe (vobj fs) p = true) :
    (setNestedValue (vobj fs) p v).bind (fun d => getNestedValue d p) =
      some v := by
  obtain ⟨gs', h1, h2⟩ := setLoop_roundtrip p fs v hp hs
  show (setLoop (vobj fs) p v).bind (fun d => getNestedValue d p) = some v
  rw [h1]
  show getNestedLoop (vobj gs') p = some v
  exact h2

/-- Witness for the amended C5 on `{}` with path `a.b`. -/
theorem c5_amended_set_get_roundtrip_witness :
    (setNestedValue (vobj []) ["a", "b"] (vnum 7)).bind
      (fun d => getNestedValue d ["a", "b"]) = some (vnum 7) :=
  c5_amended_set_get_roundtrip [] ["a", "b"] (vnum 7) (by simp) rfl

/-! ## Claim C6: deleting an absent path -/

theorem objLookupJS_cons (k1 : String) (ov : Option Val) (rest : Fields)
    (k : String) :
    objLookupJS ((k1, ov) :: rest) k =
      if k1 == k then ov else objLookupJS rest k := by
  unfold objLookupJS assocLookup
  by_cases h : k1 == k
  · rw [@List.find?_cons_of_pos _ (fun p => p.1 == k) (k1, ov) rest h,
      if_pos h]
    rfl
  · rw [@List.find?_cons_of_neg _ (fun p => p.1 == k) (k1, ov) rest h,
      if_neg h]

theorem hasKeyF_cons (k1 : String) (ov : Option Val) (rest : Fields)
    (k : String) :
    hasKeyF ((k1, ov) :: rest) k = ((k1 == k) || hasKeyF rest k) := by
  simp [hasKeyF]

theorem eraseKey_of_no_key (fs : Fields) (k : String)
    (h : hasKeyF fs k = false) : eraseKey fs k = fs := by
  induction fs with
  | nil => rfl
  | cons p rest ih =>
      rw [show p = (p.1, p.2) from rfl, hasKeyF_cons, Bool.or_eq_false_iff]
        at h
      unfold eraseKey
      rw [List.filter_cons_of_pos (by simp [h.1])]
      exact congrArg (List.cons p) (ih h.2)

theorem deleteAtPathFields_of_no_key (fs : Fields) (k : String)
    (ks : List String) (h : hasKeyF fs k = false) :
    deleteAtPathFields fs k ks = fs := by
  induction fs with
  | nil => rfl
  | cons p rest ih =>
      obtain ⟨k1, ov⟩ := p
      rw [hasKeyF_cons, Bool.or_eq_false_iff] at h
      cases ov with
      | some v =>
          unfold deleteAtPathFields
          rw [if_neg (by simp [h.1]), ih h.2]
      | none =>
          unfold deleteAtPathFields
          rw [ih h.2]

theorem wfFields_cons_some (k1 : String) (v : Val) (rest : Fields)
    (h : wfFields ((k1, some v) :: rest) = true) :
    hasKeyF rest k1 = false ∧ wfV v = true ∧ wfFields rest = true := by
  unfold wfFields at h
  rw [Bool.and_eq_true, Bool.and_eq_true] at h
  refine ⟨?_, h.1.2, h.2⟩
  have := h.1.1
  rw [Bool.not_eq_true'] at this
  exact this

theorem wfFields_cons_none (k1 : String) (rest : Fields)
    (h : wfFields ((k1, none) :: rest) = true) : False := by
  unfold wfFields at h
  exact Bool.noConfusion h

theorem objLookupJS_none_no_key (fs : Fields) (k : String)
    (hwf : wfFields fs = true) (h : objLookupJS fs k = none) :
    hasKeyF fs k = false := by
  induction fs with
  | nil => rfl
  | cons p rest ih =>
      obtain ⟨k1, ov⟩ := p
      cases ov with
      | none => exact absurd hwf (by simpa using wfFields_cons_none k1 rest)
      | some v =>
          obtain ⟨hk1, hv, hrest⟩ := wfFields_cons_some k1 v rest hwf
          rw [objLookupJS_cons] at h
          rw [hasKeyF_cons]
          by_cases he : k1 == k
          · rw [if_pos he] at h
            exact Option.noConfusion h
          · rw [if_neg he] at h
            simp only [he, Bool.false_or]
            exact ih hrest h

theorem wfFields_lookup_wf (fs : Fields) (k : String) (v : Val)
    (hwf : wfFields fs = true) (h : objLookupJS fs k = some v) :
    wfV v = true := by
  induction fs with
  | nil => exact Option.noConfusion h
  | cons p rest ih =>
      obtain ⟨k1, ov⟩ := p
      cases ov with
      | none => exact absurd hwf (by simpa using wfFields_cons_none k1 rest)
      | some w =>
          obtain ⟨hk1, hw, hrest⟩ := wfFields_cons_some k1 w rest hwf
          rw [objLookupJS_cons] at h
          by_cases he : k1 == k
          · rw [if_pos he] at h
            cases h
            exact hw
          · rw [if_neg he] at h
            exact ih hrest h

theorem deleteAtPathFields_of_fixed (fs : Fields) (k : String)
    (ks : List String) (v : Val) (hwf : wfFields fs = true)
    (hl : objLookupJS fs k = some v) (hfix : deleteAtPath v ks = v) :
    deleteAtPathFields fs k ks = fs := by
  induction fs with
  | nil => exact Option.noConfusion hl
  | cons p rest ih =>
      obtain ⟨k1, ov⟩ := p
      cases ov with
      | none => exact absurd hwf (by simpa using wfFields_cons_none k1 rest)
      | some w =>
          obtain ⟨hk1, hw, hrest⟩ := wfFields_cons_some k1 w rest hwf
          rw [objLookupJS_cons] at hl
          by_cases he : k1 == k
          · rw [if_pos he] at hl
            cases hl
            unfold deleteAtPathFields
            rw [if_pos he, hfix,
              deleteAtPathFields_of_no_key rest k ks
                (by rwa [show k1 = k by simpa using he] at hk1)]
          · rw [if_neg he] at hl
            unfold deleteAtPathFields
            rw [if_neg he, ih hrest hl]

theorem getNestedLoop_arr_ne_none (p : List String) (xs : List Val) :
    getNestedLoop (varr xs) p ≠ none := by
  induction p generalizing xs with
  | nil => simp [getNestedLoop]
  | cons k ks ih => exact ih _

theorem deleteAtPath_scalar_eq (cur : Val) (p : List String)
    (h : ∀ xs, cur ≠ varr xs) (h2 : ∀ fs, cur ≠ vobj fs) :
    deleteAtPath cur p = cur := by
  cases cur with
  | varr xs => exact absurd rfl (h xs)
  | vobj fs => exact absurd rfl (h2 fs)
  | vnull => cases p <;> rfl
  | vbool b => cases p <;> rfl
  | vnum n => cases p <;> rfl
  | vstr s => cases p <;> rfl

theorem deleteLoop_absent_noop (p : List String) (cur : Val)
    (hwf : wfV cur = true) (habs : getNestedLoop cur p = none) :
    deleteAtPath cur p = cur := by
  induction p generalizing cur with
  | nil =>
      rw [getNestedLoop_nil] at habs
      exact Option.noConfusion habs
  | cons k ks ih =>
      cases cur with
      | varr xs => exact absurd habs (getNestedLoop_arr_ne_none _ _)
      | vnull => cases ks <;> rfl
      | vbool b => cases ks <;> rfl
      | vnum n => cases ks <;> rfl
      | vstr s => cases ks <;> rfl
      | vobj fs =>
          have hwfF : wfFields fs = true := hwf
          rw [getNestedLoop_obj] at habs
          cases hk : objLookupJS fs k with
          | none =>
              have hnk := objLookupJS_none_no_key fs k hwfF hk
              cases ks with
              | nil =>
                  show vobj (eraseKey fs k) = vobj fs
                  rw [eraseKey_of_no_key fs k hnk]
              | cons k2 ks2 =>
                  show vobj (deleteAtPathFields fs k (k2 :: ks2)) = vobj fs
                  rw [deleteAtPathFields_of_no_key fs k _ hnk]
          | some v =>
              rw [hk] at habs
              have habs' : getNestedLoop v ks = none := habs
              cases ks with
              | nil =>
                  rw [getNestedLoop_nil] at habs'
                  exact Option.noConfusion habs'
              | cons k2 ks2 =>
                  have hfix := ih v
                    (wfFields_lookup_wf fs k v hwfF hk) habs'
                  show vobj (deleteAtPathFields fs k (k2 :: ks2)) = vobj fs
                  rw [deleteAtPathFields_of_fixed fs k _ v hwfF hk hfix]

/-- C6: on a well-formed Document (no stored `undefined`, no duplicate keys
— spec §3's data model), if the deep read of a path is absent, then
`deleteAtPath` at that path is a no-op: the document is unchanged at every
depth. -/
theorem c6_delete_absent_noop (D : Val) (P : List String)
    (hwf : wfV D = true) (habs : getNestedValue D P = none) :
    deleteAtPath D P = D := by
  unfold getNestedValue at habs
  by_cases ht : jsTruthy D = true
  · rw [if_pos ht] at habs
    exact deleteLoop_absent_noop P D hwf habs
  · cases D with
    | varr xs => exact absurd rfl ht
    | vobj fs => exact absurd rfl ht
    | vnull => cases P <;> rfl
    | vbool b => cases P <;> rfl
    | vnum n => cases P <;> rfl
    | vstr s => cases P <;> rfl

/-- Witness for C6 on `{a: 1}` with the absent path `b`. -/
theorem c6_delete_absent_noop_witness :
    deleteAtPath (vobj [("a", some (vnum 1))]) ["b"] =
      vobj [("a", some (vnum 1))] :=
  c6_delete_absent_noop (vobj [("a", some (vnum 1))]) ["b"] rfl rfl

/-! ## Claim C7: privacy filter idempotence -/

theorem deleteAtPathFields_cons_some (k1 : String) (v : Val) (rest : Fields)
    (k : String) (ks : List String) :
    deleteAtPathFields ((k1, some v) :: rest) k ks =
      (if k1 == k then (k1, some (deleteAtPath v ks)) else (k1, some v))
        :: deleteAtPathFields rest k ks := rfl

theorem deleteAtPathFields_cons_none (k1 : String) (rest : Fields)
    (k : String) (ks : List String) :
    deleteAtPathFields ((k1, none) :: rest) k ks =
      (k1, none) :: deleteAtPathFields rest k ks := rfl

theorem eraseKey_cons {α : Type} (p : String × α) (rest : List (String × α))
    (k : String) :
    eraseKey (p :: rest) k =
      (if p.1 == k then eraseKey rest k else p :: eraseKey rest k) := by
  unfold eraseKey
  by_cases h : p.1 == k
  · rw [if_pos h, List.filter_cons_of_neg (by simp [h])]
  · rw [if_neg h, List.filter_cons_of_pos (by simp [h])]

theorem eraseKey_comm {α : Type} (fs : List (String × α)) (k l : String) :
    eraseKey (eraseKey fs k) l = eraseKey (eraseKey fs l) k := by
  induction fs with
  | nil => rfl
  | cons p rest ih =>
      by_cases h1 : p.1 == k <;> by_cases h2 : p.1 == l <;>
        simp [eraseKey_cons, h1, h2, ih]

theorem eraseKey_absorb {α : Type} (fs : List (String × α)) (k : String) :
    eraseKey (eraseKey fs k) k = eraseKey fs k := by
  induction fs with
  | nil => rfl
  | cons p rest ih =>
      by_cases h : p.1 == k <;> simp [eraseKey_cons, h, ih]

theorem deleteAtPathFields_eraseKey (fs : Fields) (k : String)
    (ks : List String) (l : String) :
    deleteAtPathFields (eraseKey fs l) k ks =
      eraseKey (deleteAtPathFields fs k ks) l := by
  induction fs with
  | nil => rfl
  | cons p rest ih =>
      obtain ⟨k1, ov⟩ := p
      cases ov with
      | some v =>
          rw [eraseKey_cons, deleteAtPathFields_cons_some]
          by_cases h2 : k1 == l
          · rw [if_pos (by simpa using h2), ih, eraseKey_cons]
            by_cases h1 : k1 == k
            · rw [if_pos h1]
              rw [if_pos (by simpa using h2)]
            · rw [if_neg h1]
              rw [if_pos (by simpa using h2)]
          · rw [if_neg (by simpa using h2)]
            by_cases h1 : k1 == k
            · rw [if_pos h1, deleteAtPathFields_cons_some, if_pos h1,
                eraseKey_cons, if_neg (by simpa using h2), ih]
            · rw [if_neg h1, deleteAtPathFields_cons_some, if_neg h1,
                eraseKey_cons, if_neg (by simpa using h2), ih]
      | none =>
          rw [eraseKey_cons, deleteAtPathFields_cons_none]
          by_cases h2 : k1 == l
          · rw [if_pos (by simpa using h2), ih, eraseKey_cons,
              if_pos (by simpa using h2)]
          · rw [if_neg (by simpa using h2), deleteAtPathFields_cons_none,
              eraseKey_cons, if_neg (by simpa using h2), ih]

mutual
theorem deleteAtPath_nil (x : Val) : deleteAtPath x [] = x := by
  cases x with
  | varr xs => exact congrArg varr (deleteAtPathArr_nil xs)
  | vnull => rfl
  | vbool b => rfl
  | vnum n => rfl
  | vstr s => rfl
  | vobj fs => rfl

theorem deleteAtPathArr_nil (xs : List Val) : deleteAtPathArr xs [] = xs := by
  cases xs with
  | nil => rfl
  | cons x rest =>
      show deleteAtPath x [] :: deleteAtPathArr rest [] = x :: rest
      rw [deleteAtPath_nil x, deleteAtPathArr_nil rest]
end

mutual
theorem deleteAtPath_absorb (x : Val) (p : List String) :
    deleteAtPath (deleteAtPath x p) p = deleteAtPath x p := by
  cases x with
  | varr xs => exact congrArg varr (deleteAtPathArr_absorb xs p)
  | vnull => cases p <;> rfl
  | vbool b => cases p <;> rfl
  | vnum n => cases p <;> rfl
  | vstr s => cases p <;> rfl
  | vobj fs =>
      cases p with
      | nil => rfl
      | cons k ks =>
          cases ks with
          | nil =>
              show vobj (eraseKey (eraseKey fs k) k) = vobj (eraseKey fs k)
              rw [eraseKey_absorb]
          | cons k2 ks2 =>
              show vobj (deleteAtPathFields
                  (deleteAtPathFields fs k (k2 :: ks2)) k (k2 :: ks2)) =
                vobj (deleteAtPathFields fs k (k2 :: ks2))
              rw [deleteAtPathFields_absorb fs k (k2 :: ks2)]

theorem deleteAtPathArr_absorb (xs : List Val) (p : List String) :
    deleteAtPathArr (deleteAtPathArr xs p) p = deleteAtPathArr xs p := by
  cases xs with
  | nil => rfl
  | cons x rest =>
      show deleteAtPath (deleteAtPath x p) p
          :: deleteAtPathArr (deleteAtPathArr rest p) p =
        deleteAtPath x p :: deleteAtPathArr rest p
      rw [deleteAtPath_absorb x p, deleteAtPathArr_absorb rest p]

theorem deleteAtPathFields_absorb (fs : Fields) (k : String)
    (ks : List String) :
    deleteAtPathFields (deleteAtPathFields fs k ks) k ks =
      deleteAtPathFields fs k ks := by
  cases fs with
  | nil => rfl
  | cons p rest =>
      obtain ⟨k1, ov⟩ := p
      cases ov with
      | some v =>
          rw [deleteAtPathFields_cons_some]
          by_cases h : k1 == k
          · rw [if_pos h, deleteAtPathFields_cons_some, if_pos h,
              deleteAtPath_absorb v ks, deleteAtPathFields_absorb rest k ks]
          · rw [if_neg h, deleteAtPathFields_cons_some, if_neg h,
              deleteAtPathFields_absorb rest k ks]
      | none =>
          rw [deleteAtPathFields_cons_none, deleteAtPathFields_cons_none,
            deleteAtPathFields_absorb rest k ks]
end

mutual
theorem deleteAtPath_comm (x : Val) (p q : List String) :
    deleteAtPath (deleteAtPath x p) q = deleteAtPath (deleteAtPath x q) p := by
  cases x with
  | varr xs => exact congrArg varr (deleteAtPathArr_comm xs p q)
  | vnull => cases p <;> cases q <;> rfl
  | vbool b => cases p <;> cases q <;> rfl
  | vnum n => cases p <;> cases q <;> rfl
  | vstr s => cases p <;> cases q <;> rfl
  | vobj fs =>
      cases p with
      | nil => rw [deleteAtPath_nil, deleteAtPath_nil]
      | cons k ks =>
          cases q with
          | nil => rw [deleteAtPath_nil, deleteAtPath_nil]
          | cons l ls =>
              cases ks with
              | nil =>
                  cases ls with
                  | nil =>
                      show vobj (eraseKey (eraseKey fs k) l) =
                        vobj (eraseKey (eraseKey fs l) k)
                      rw [eraseKey_comm]
                  | cons l2 ls2 =>
                      show vobj (deleteAtPathFields (eraseKey fs k) l
                          (l2 :: ls2)) =
                        vobj (eraseKey
                          (deleteAtPathFields fs l (l2 :: ls2)) k)
                      rw [deleteAtPathFields_eraseKey]
              | cons k2 ks2 =>
                  cases ls with
                  | nil =>
                      show vobj (eraseKey
                          (deleteAtPathFields fs k (k2 :: ks2)) l) =
                        vobj (deleteAtPathFields (eraseKey fs l) k
                          (k2 :: ks2))
                      rw [deleteAtPathFields_eraseKey]
                  | cons l2 ls2 =>
                      show vobj (deleteAtPathFields
                          (deleteAtPathFields fs k (k2 :: ks2)) l
                          (l2 :: ls2)) =
                        vobj (deleteAtPathFields
                          (deleteAtPathFields fs l (l2 :: ls2)) k
                          (k2 :: ks2))
                      rw [deleteAtPathFields_comm fs k (k2 :: ks2) l
                        (l2 :: ls2)]

theorem deleteAtPathArr_comm (xs : List Val) (p q : List String) :
    deleteAtPathArr (deleteAtPathArr xs p) q =
      deleteAtPathArr (deleteAtPathArr xs q) p := by
  cases xs with
  | nil => rfl
  | cons x rest =>
      show deleteAtPath (deleteAtPath x p) q
          :: deleteAtPathArr (deleteAtPathArr rest p) q =
        deleteAtPath (deleteAtPath x q) p
          :: deleteAtPathArr (deleteAtPathArr rest q) p
      rw [deleteAtPath_comm x p q, deleteAtPathArr_comm rest p q]

theorem deleteAtPathFields_comm (fs : Fields) (k : String)
    (ks : List String) (l : String) (ls : List String) :
    deleteAtPathFields (deleteAtPathFields fs k ks) l ls =
      deleteAtPathFields (deleteAtPathFields fs l ls) k ks := by
  cases fs with
  | nil => rfl
  | cons p rest =>
      obtain ⟨k1, ov⟩ := p
      cases ov with
      | some v =>
          rw [deleteAtPathFields_cons_some, deleteAtPathFields_cons_some]
          by_cases h1 : k1 == k <;> by_cases h2 : k1 == l
          · rw [if_pos h1, if_pos h2, deleteAtPathFields_cons_some,
              deleteAtPathFields_cons_some, if_pos h2, if_pos h1,
              deleteAtPath_comm v ks ls,
              deleteAtPathFields_comm rest k ks l ls]
          · rw [if_pos h1, if_neg h2, deleteAtPathFields_cons_some,
              deleteAtPathFields_cons_some, if_neg h2, if_pos h1,
              deleteAtPathFields_comm rest k ks l ls]
          · rw [if_neg h1, if_pos h2, deleteAtPathFields_cons_some,
              deleteAtPathFields_cons_some, if_pos h2, if_neg h1,
              deleteAtPathFields_comm rest k ks l ls]
          · rw [if_neg h1, if_neg h2, deleteAtPathFields_cons_some,
              deleteAtPathFields_cons_some, if_neg h2, if_neg h1,
              deleteAtPathFields_comm rest k ks l ls]
      | none =>
          rw [deleteAtPathFields_cons_none, deleteAtPathFields_cons_none,
            deleteAtPathFields_cons_none, deleteAtPathFields_cons_none,
            deleteAtPathFields_comm rest k ks l ls]
end

theorem privacyFilter_cons (q : String) (priv : Bool)
    (rest : List (String × Bool)) (x : Val) :
    privacyFilter ((q, priv) :: rest) x =
      privacyFilter rest
        (if priv then deleteAtPath x (splitPath q) else x) := rfl

theorem privacyFilter_delete_comm (sp : List (String × Bool)) (x : Val)
    (p : List String) :
    privacyFilter sp (deleteAtPath x p) =
      deleteAtPath (privacyFilter sp x) p := by
  induction sp generalizing x with
  | nil => rfl
  | cons pr rest ih =>
      obtain ⟨q, priv⟩ := pr
      rw [privacyFilter_cons, privacyFilter_cons]
      cases priv with
      | false => exact ih x
      | true =>
          show privacyFilter rest
              (deleteAtPath (deleteAtPath x p) (splitPath q)) =
            deleteAtPath (privacyFilter rest (deleteAtPath x (splitPath q)))
              p
          rw [deleteAtPath_comm x p (splitPath q)]
          exact ih _

/-- C7: the Privacy Filter — the fold of `deleteAtPath` over the schema's
private paths — is idempotent on every document and every metadata mapping:
a second pass removes and changes nothing. -/
theorem c7_privacy_filter_idempotent (sp : List (String × Bool)) (D : Val) :
    privacyFilter sp (privacyFilter sp D) = privacyFilter sp D := by
  induction sp generalizing D with
  | nil => rfl
  | cons pr rest ih =>
      obtain ⟨q, priv⟩ := pr
      rw [privacyFilter_cons, privacyFilter_cons]
      cases priv with
      | false => exact ih D
      | true =>
          show privacyFilter rest
              (deleteAtPath (privacyFilter rest
                (deleteAtPath D (splitPath q))) (splitPath q)) =
            privacyFilter rest (deleteAtPath D (splitPath q))
          rw [← privacyFilter_delete_comm rest
              (deleteAtPath D (splitPath q)) (splitPath q),
            deleteAtPath_absorb D (splitPath q)]
          exact ih _

/-! ## Claims C9 and C10, amended: key-preservation lemmas -/

theorem splitChar_ne_nil (c : Char) (cs : List Char) :
    splitChar c cs ≠ [] := by
  cases cs with
  | nil => simp [splitChar]
  | cons ch rest =>
      unfold splitChar
      cases h : splitChar c rest with
      | nil => simp
      | cons g gs =>
          by_cases he : ch == c <;> simp [he]

theorem splitPath_cons (s : String) :
    splitPath s = headOf s :: (splitPath s).tail := by
  unfold headOf splitPath jsSplitC
  cases h : splitChar '.' s.data with
  | nil => exact absurd h (splitChar_ne_nil '.' s.data)
  | cons g gs => rfl

theorem hasKeyF_eq_isSome (fs : Fields) (k : String) :
    hasKeyF fs k = (assocLookup fs k).isSome := by
  induction fs with
  | nil => rfl
  | cons p rest ih =>
      rw [show p = (p.1, p.2) from rfl, hasKeyF_cons]
      unfold assocLookup
      by_cases h : p.1 == k
      · rw [@List.find?_cons_of_pos _ (fun q => q.1 == k) (p.1, p.2) rest h]
        simp [h]
      · rw [@List.find?_cons_of_neg _ (fun q => q.1 == k) (p.1, p.2) rest h]
        simp only [h, Bool.false_or]
        exact ih

theorem hasKeyF_erase_self (fs : Fields) (k : String) :
    hasKeyF (eraseKey fs k) k = false := by
  rw [hasKeyF_eq_isSome, assocLookup_erase_self]
  rfl

theorem hasKeyF_erase_false (fs : Fields) (k l : String)
    (h : hasKeyF fs k = false) : hasKeyF (eraseKey fs l) k = false := by
  by_cases he : k = l
  · subst he
    exact hasKeyF_erase_self fs k
  · rw [hasKeyF_eq_isSome, assocLookup_erase_ne _ _ _ he,
      ← hasKeyF_eq_isSome]
    exact h

theorem assocLookup_dFields_ne (fs : Fields) (f : String)
    (fr : List String) (k : String) (h : k ≠ f) :
    assocLookup (deleteAtPathFields fs f fr) k = assocLookup fs k := by
  induction fs with
  | nil => rfl
  | cons p rest ih =>
      obtain ⟨k1, ov⟩ := p
      cases ov with
      | some v =>
          rw [deleteAtPathFields_cons_some]
          by_cases h1 : k1 == f
          · rw [if_pos h1]
            have hk1 : ¬(k1 == k) = true := by
              simp only [beq_iff_eq] at h1 ⊢
              rw [h1]
              exact Ne.symm h
            unfold assocLookup
            rw [@List.find?_cons_of_neg _ (fun q => q.1 == k)
                (k1, some (deleteAtPath v fr)) _ hk1,
              @List.find?_cons_of_neg _ (fun q => q.1 == k)
                (k1, some v) rest hk1]
            exact ih
          · rw [if_neg h1]
            by_cases hk1 : k1 == k
            · unfold assocLookup
              rw [@List.find?_cons_of_pos _ (fun q => q.1 == k)
                  (k1, some v) _ hk1,
                @List.find?_cons_of_pos _ (fun q => q.1 == k)
                  (k1, some v) rest hk1]
            · unfold assocLookup
              rw [@List.find?_cons_of_neg _ (fun q => q.1 == k)
                  (k1, some v) _ hk1,
                @List.find?_cons_of_neg _ (fun q => q.1 == k)
                  (k1, some v) rest hk1]
              exact ih
      | none =>
          rw [deleteAtPathFields_cons_none]
          by_cases hk1 : k1 == k
          · unfold assocLookup
            rw [@List.find?_cons_of_pos _ (fun q => q.1 == k)
                (k1, none) _ hk1,
              @List.find?_cons_of_pos _ (fun q => q.1 == k)
                (k1, none) rest hk1]
          · unfold assocLookup
            rw [@List.find?_cons_of_neg _ (fun q => q.1 == k)
                (k1, none) _ hk1,
              @List.find?_cons_of_neg _ (fun q => q.1 == k)
                (k1, none) rest hk1]
            exact ih

theorem hasKeyF_dFields (fs : Fields) (f : String) (fr : List String)
    (k : String) : hasKeyF (deleteAtPathFields fs f fr) k = hasKeyF fs k := by
  induction fs with
  | nil => rfl
  | cons p rest ih =>
      obtain ⟨k1, ov⟩ := p
      cases ov with
      | some v =>
          rw [deleteAtPathFields_cons_some]
          by_cases h1 : k1 == f
          · rw [if_pos h1, hasKeyF_cons, hasKeyF_cons, ih]
          · rw [if_neg h1, hasKeyF_cons, hasKeyF_cons, ih]
      | none =>
          rw [deleteAtPathFields_cons_none, hasKeyF_cons, hasKeyF_cons, ih]

theorem deleteAtPath_obj_preserve_lookup (fs : Fields) (f0 : String)
    (fr : List String) (k : String) (h : k ≠ f0) :
    ∃ gs, deleteAtPath (vobj fs) (f0 :: fr) = vobj gs
      ∧ assocLookup gs k = assocLookup fs k := by
  cases fr with
  | nil => exact ⟨eraseKey fs f0, rfl, assocLookup_erase_ne _ _ _ h⟩
  | cons f1 fr1 =>
      exact ⟨deleteAtPathFields fs f0 (f1 :: fr1), rfl,
        assocLookup_dFields_ne _ _ _ _ h⟩

theorem deleteAtPath_obj_preserve_hasKey_false (fs : Fields)
    (p : List String) (k : String) (h : hasKeyF fs k = false) :
    ∃ gs, deleteAtPath (vobj fs) p = vobj gs ∧ hasKeyF gs k = false := by
  cases p with
  | nil => exact ⟨fs, rfl, h⟩
  | cons f0 fr =>
      cases fr with
      | nil => exact ⟨eraseKey fs f0, rfl, hasKeyF_erase_false fs k f0 h⟩
      | cons f1 fr1 =>
          refine ⟨deleteAtPathFields fs f0 (f1 :: fr1), rfl, ?_⟩
          rw [hasKeyF_dFields]
          exact h

theorem setLoop_obj_preserve (gs : Fields) (t : String) (ts : List String)
    (v : Val) (k : String) (hk : k ≠ t) (r : Val)
    (h : setLoop (vobj gs) (t :: ts) v = some r) :
    ∃ gs', r = vobj gs' ∧ assocLookup gs' k = assocLookup gs k := by
  cases ts with
  | nil =>
      cases h
      exact ⟨assocSet gs t (some v), rfl, assocLookup_set_ne _ _ _ _ hk⟩
  | cons t2 ts2 =>
      rw [setLoop_cons2] at h
      cases hl : objLookupJS gs t with
      | none =>
          rw [hl] at h
          have h' : (setLoop (vobj []) (t2 :: ts2) v).map
              (fun w' => vobj (assocSet gs t (some w'))) = some r := h
          obtain ⟨w, hw, hr⟩ := Option.map_eq_some'.mp h'
          exact ⟨assocSet gs t (some w), hr.symm,
            assocLookup_set_ne _ _ _ _ hk⟩
      | some w =>
          rw [hl] at h
          cases w with
          | varr xs =>
              cases h
              exact ⟨gs, rfl, rfl⟩
          | vobj hs =>
              have h' : (setLoop (vobj hs) (t2 :: ts2) v).map
                  (fun w => vobj (assocSet gs t (some w))) = some r := h
              obtain ⟨w, hw, hr⟩ := Option.map_eq_some'.mp h'
              exact ⟨assocSet gs t (some w), hr.symm,
                assocLookup_set_ne _ _ _ _ hk⟩
          | vnull =>
              have h' : (setLoop (vobj []) (t2 :: ts2) v).map
                  (fun w' => vobj (assocSet gs t (some w'))) = some r := h
              obtain ⟨w, hw, hr⟩ := Option.map_eq_some'.mp h'
              exact ⟨assocSet gs t (some w), hr.symm,
                assocLookup_set_ne _ _ _ _ hk⟩
          | vbool b =>
              cases b with
              | false =>
                  have h' : (setLoop (vobj []) (t2 :: ts2) v).map
                      (fun w' => vobj (assocSet gs t (some w'))) = some r := h
                  obtain ⟨w, hw, hr⟩ := Option.map_eq_some'.mp h'
                  exact ⟨assocSet gs t (some w), hr.symm,
                    assocLookup_set_ne _ _ _ _ hk⟩
              | true => exact Option.noConfusion h
          | vnum n =>
              by_cases hn : n = 0
              · subst hn
                have h' : (setLoop (vobj []) (t2 :: ts2) v).map
                    (fun w' => vobj (assocSet gs t (some w'))) = some r := h
                obtain ⟨w, hw, hr⟩ := Option.map_eq_some'.mp h'
                exact ⟨assocSet gs t (some w), hr.symm,
                  assocLookup_set_ne _ _ _ _ hk⟩
              · have h' : (if jsTruthy (vnum n) then none
                    else (setLoop (vobj []) (t2 :: ts2) v).map
                      (fun w' => vobj (assocSet gs t (some w')))) =
                    some r := h
                rw [if_pos (by simp [jsTruthy, hn])] at h'
                exact Option.noConfusion h'
          | vstr s =>
              by_cases hs : s = ""
              · subst hs
                have h' : (setLoop (vobj []) (t2 :: ts2) v).map
                    (fun w' => vobj (assocSet gs t (some w'))) = some r := h
                obtain ⟨w, hw, hr⟩ := Option.map_eq_some'.mp h'
                exact ⟨assocSet gs t (some w), hr.symm,
                  assocLookup_set_ne _ _ _ _ hk⟩
              · have h' : (if jsTruthy (vstr s) then none
                    else (setLoop (vobj []) (t2 :: ts2) v).map
                      (fun w' => vobj (assocSet gs t (some w')))) =
                    some r := h
                rw [if_pos (by simp [jsTruthy, hs])] at h'
                exact Option.noConfusion h'

theorem renameDeepKey_preserve_lookup (fs : Fields) (f t k : String)
    (hf : k ≠ headOf f) (ht : k ≠ headOf t) (r : Val)
    (h : renameDeepKey (vobj fs) f t = some r) :
    ∃ gs', r = vobj gs' ∧ assocLookup gs' k = assocLookup fs k := by
  have h' : (match getNestedValue (vobj fs) (splitPath f) with
      | none => some (vobj fs)
      | some value =>
          (setNestedValue (vobj fs) (splitPath t) value).map
            (fun r => deleteAtPath r (splitPath f))) = some r := h
  cases hg : getNestedValue (vobj fs) (splitPath f) with
  | none =>
      rw [hg] at h'
      cases h'
      exact ⟨fs, rfl, rfl⟩
  | some value =>
      rw [hg] at h'
      have h2 : (setLoop (vobj fs) (splitPath t) value).map
          (fun r => deleteAtPath r (splitPath f)) = some r := h'
      obtain ⟨w, hw, hr⟩ := Option.map_eq_some'.mp h2
      rw [splitPath_cons t] at hw
      obtain ⟨gs1, hweq, hl1⟩ := setLoop_obj_preserve fs (headOf t)
        ((splitPath t).tail) value k ht w hw
      subst hweq
      rw [splitPath_cons f] at hr
      obtain ⟨gs2, hg2, hl2⟩ := deleteAtPath_obj_preserve_lookup gs1
        (headOf f) ((splitPath f).tail) k hf
      exact ⟨gs2, by rw [← hr, hg2], by rw [hl2, hl1]⟩

theorem renameDeepKey_preserve_hasKey_false (fs : Fields) (f t k : String)
    (hfk : hasKeyF fs k = false) (ht : k ≠ headOf t) (r : Val)
    (h : renameDeepKey (vobj fs) f t = some r) :
    ∃ gs', r = vobj gs' ∧ hasKeyF gs' k = false := by
  have h' : (match getNestedValue (vobj fs) (splitPath f) with
      | none => some (vobj fs)
      | some value =>
          (setNestedValue (vobj fs) (splitPath t) value).map
            (fun r => deleteAtPath r (splitPath f))) = some r := h
  cases hg : getNestedValue (vobj fs) (splitPath f) with
  | none =>
      rw [hg] at h'
      cases h'
      exact ⟨fs, rfl, hfk⟩
  | some value =>
      rw [hg] at h'
      have h2 : (setLoop (vobj fs) (splitPath t) value).map
          (fun r => deleteAtPath r (splitPath f)) = some r := h'
      obtain ⟨w, hw, hr⟩ := Option.map_eq_some'.mp h2
      rw [splitPath_cons t] at hw
      obtain ⟨gs1, hweq, hl1⟩ := setLoop_obj_preserve fs (headOf t)
        ((splitPath t).tail) value k ht w hw
      subst hweq
      have hk1 : hasKeyF gs1 k = false := by
        rw [hasKeyF_eq_isSome, hl1, ← hasKeyF_eq_isSome]
        exact hfk
      obtain ⟨gs2, hg2, hk2⟩ := deleteAtPath_obj_preserve_hasKey_false gs1
        (splitPath f) k hk1
      exact ⟨gs2, by rw [← hr, hg2], hk2⟩

theorem applyAliasEntries_preserve_lookup
    (entries : List (String × String)) (fs out : Fields) (k : String)
    (hc : ∀ e ∈ entries, k ≠ headOf e.1 ∧ k ≠ headOf e.2)
    (h : applyAliasEntries entries fs = some out) :
    assocLookup out k = assocLookup fs k := by
  induction entries generalizing fs with
  | nil =>
      cases h
      rfl
  | cons e rest ih =>
      obtain ⟨f, t⟩ := e
      have h' : (match renameDeepKey (vobj fs) f t with
          | none => none
          | some r => applyAliasEntries rest (objFields r)) = some out := h
      cases hr : renameDeepKey (vobj fs) f t with
      | none =>
          rw [hr] at h'
          exact Option.noConfusion h'
      | some r =>
          rw [hr] at h'
          have hc1 := hc (f, t) (List.mem_cons_self _ _)
          obtain ⟨gs', hreq, hl⟩ :=
            renameDeepKey_preserve_lookup fs f t k hc1.1 hc1.2 r hr
          subst hreq
          have hrec := ih gs' (fun e he => hc e (List.mem_cons_of_mem _ he))
            h'
          rw [hrec, hl]

theorem applyAliasEntries_preserve_hasKey_false
    (entries : List (String × String)) (fs out : Fields) (k : String)
    (hfk : hasKeyF fs k = false)
    (hc : ∀ e ∈ entries, k ≠ headOf e.2)
    (h : applyAliasEntries entries fs = some out) :
    hasKeyF out k = false := by
  induction entries generalizing fs with
  | nil =>
      cases h
      exact hfk
  | cons e rest ih =>
      obtain ⟨f, t⟩ := e
      have h' : (match renameDeepKey (vobj fs) f t with
          | none => none
          | some r => applyAliasEntries rest (objFields r)) = some out := h
      cases hr : renameDeepKey (vobj fs) f t with
      | none =>
          rw [hr] at h'
          exact Option.noConfusion h'
      | some r =>
          rw [hr] at h'
          obtain ⟨gs', hreq, hk'⟩ :=
            renameDeepKey_preserve_hasKey_false fs f t k hfk
              (hc (f, t) (List.mem_cons_self _ _)) r hr
          subst hreq
          exact ih gs' hk' (fun e he => hc e (List.mem_cons_of_mem _ he)) h'

theorem privacyFilter_preserve_lookup (sp : List (String × Bool))
    (fs : Fields) (k : String)
    (hc : ∀ pr ∈ sp, pr.2 = true → k ≠ headOf pr.1) :
    ∃ gs, privacyFilter sp (vobj fs) = vobj gs
      ∧ assocLookup gs k = assocLookup fs k := by
  induction sp generalizing fs with
  | nil => exact ⟨fs, rfl, rfl⟩
  | cons pr rest ih =>
      obtain ⟨q, priv⟩ := pr
      rw [privacyFilter_cons]
      cases priv with
      | false =>
          exact ih fs (fun pr hpr hp => hc pr (List.mem_cons_of_mem _ hpr) hp)
      | true =>
          have hq : k ≠ headOf q := hc (q, true) (List.mem_cons_self _ _) rfl
          obtain ⟨gs1, hd, hl1⟩ := deleteAtPath_obj_preserve_lookup fs
            (headOf q) ((splitPath q).tail) k hq
          rw [← splitPath_cons q] at hd
          show ∃ gs, privacyFilter rest (deleteAtPath (vobj fs)
            (splitPath q)) = vobj gs ∧ assocLookup gs k = assocLookup fs k
          rw [hd]
          obtain ⟨gs2, h2, hl2⟩ := ih gs1
            (fun pr hpr hp => hc pr (List.mem_cons_of_mem _ hpr) hp)
          exact ⟨gs2, h2, by rw [hl2, hl1]⟩

/-- C9 amended: the transform's output has no top-level `password` key
provided no applied alias rule's destination path starts at the top-level
key `password` — the unconditional `delete ret.password` runs before alias
rewriting, so only such a rule can re-create the key. -/
theorem c9_amended_no_password_key (sp : List (String × Bool)) (doc : Val)
    (ret : Fields) (opts : ToJSONOptions) (out : Fields)
    (halias : ∀ e ∈ aliasEntries opts.aliasSpec, "password" ≠ headOf e.2)
    (hout : transform sp doc ret opts = some out) :
    hasKeyF out "password" = false := by
  have hbase : hasKeyF (transformBase sp doc ret opts) "password" = false :=
    hasKeyF_erase_self _ _
  exact applyAliasEntries_preserve_hasKey_false
    (aliasEntries opts.aliasSpec) (transformBase sp doc ret opts) out
    "password" hbase halias hout

/-- Witness for the amended C9: a document carrying a `password` field,
no alias rules. -/
theorem c9_amended_no_password_key_witness :
    hasKeyF [("id", none)] "password" = false :=
  c9_amended_no_password_key [] (vobj [])
    [("password", some (vstr "x"))] {} [("id", none)]
    (fun e he => absurd he (List.not_mem_nil e)) rfl

/-- C10 amended: provided no private-flagged schema path and no alias
rule's source or destination path starts at `createdAt` or `updatedAt`,
the transform output drops both top-level timestamp keys when
`includeTimeStamps` is false, and when it is true both keys are present and
hold `ret.x || doc.x` — the serialized object's value when truthy,
otherwise the source document's value (a stored `undefined` when both are
absent, the key still being present, as in JavaScript). -/
theorem c10_amended_timestamps (sp : List (String × Bool)) (doc : Val)
    (ret : Fields) (opts : ToJSONOptions) (out : Fields)
    (hpriv : ∀ pr ∈ sp, pr.2 = true →
      "createdAt" ≠ headOf pr.1 ∧ "updatedAt" ≠ headOf pr.1)
    (halias : ∀ e ∈ aliasEntries opts.aliasSpec,
      ("createdAt" ≠ headOf e.1 ∧ "createdAt" ≠ headOf e.2)
      ∧ ("updatedAt" ≠ headOf e.1 ∧ "updatedAt" ≠ headOf e.2))
    (hout : transform sp doc ret opts = some out) :
    (opts.includeTimeStamps = true →
      assocLookup out "createdAt" =
        some (jsOrOpt (objLookupJS ret "createdAt") (jsGet doc "createdAt"))
      ∧ assocLookup out "updatedAt" =
        some (jsOrOpt (objLookupJS ret "updatedAt") (jsGet doc "updatedAt")))
    ∧ (opts.includeTimeStamps = false →
      hasKeyF out "createdAt" = false
      ∧ hasKeyF out "updatedAt" = false) := by
  obtain ⟨gc, hgc, hlc⟩ := privacyFilter_preserve_lookup sp ret "createdAt"
    (fun pr hpr hp => (hpriv pr hpr hp).1)
  obtain ⟨gu, hgu, hlu⟩ := privacyFilter_preserve_lookup sp ret "updatedAt"
    (fun pr hpr hp => (hpriv pr hpr hp).2)
  have e1c : assocLookup (transformR1 sp ret) "createdAt" =
      assocLookup ret "createdAt" := by
    unfold transformR1
    rw [hgc]
    exact hlc
  have e1u : assocLookup (transformR1 sp ret) "updatedAt" =
      assocLookup ret "updatedAt" := by
    unfold transformR1
    rw [hgu]
    exact hlu
  have e2c : assocLookup (transformR2 sp ret) "createdAt" =
      assocLookup ret "createdAt" := by
    unfold transformR2
    rw [assocLookup_set_ne _ _ _ _
      (show ("createdAt" : String) ≠ "id" by decide)]
    exact e1c
  have e2u : assocLookup (transformR2 sp ret) "updatedAt" =
      assocLookup ret "updatedAt" := by
    unfold transformR2
    rw [assocLookup_set_ne _ _ _ _
      (show ("updatedAt" : String) ≠ "id" by decide)]
    exact e1u
  have j2c : objLookupJS (transformR2 sp ret) "createdAt" =
      objLookupJS ret "createdAt" := by
    unfold objLookupJS
    rw [e2c]
  have j2u : objLookupJS (transformR2 sp ret) "updatedAt" =
      objLookupJS ret "updatedAt" := by
    unfold objLookupJS
    rw [e2u]
  constructor
  · intro ht
    have h3c : assocLookup (transformR3 sp doc ret opts) "createdAt" =
        some (jsOrOpt (objLookupJS ret "createdAt")
          (jsGet doc "createdAt")) := by
      unfold transformR3
      rw [if_pos ht,
        assocLookup_set_ne _ _ _ _
          (show ("createdAt" : String) ≠ "updatedAt" by decide),
        assocLookup_set_self, j2c]
    have h3u : assocLookup (transformR3 sp doc ret opts) "updatedAt" =
        some (jsOrOpt (objLookupJS ret "updatedAt")
          (jsGet doc "updatedAt")) := by
      unfold transformR3
      rw [if_pos ht, assocLookup_set_self]
      have hinner : objLookupJS
          (assocSet (transformR2 sp ret) "createdAt"
            (jsOrOpt (objLookupJS (transformR2 sp ret) "createdAt")
              (jsGet doc "createdAt")))
          "updatedAt" = objLookupJS ret "updatedAt" := by
        unfold objLookupJS
        rw [assocLookup_set_ne _ _ _ _
          (show ("updatedAt" : String) ≠ "createdAt" by decide), e2u]
      rw [hinner]
    have hbc : assocLookup (transformBase sp doc ret opts) "createdAt" =
        assocLookup (transformR3 sp doc ret opts) "createdAt" := by
      unfold transformBase
      rw [assocLookup_erase_ne _ _ _
          (show ("createdAt" : String) ≠ "password" by decide),
        assocLookup_erase_ne _ _ _
          (show ("createdAt" : String) ≠ "__v" by decide),
        assocLookup_erase_ne _ _ _
          (show ("createdAt" : String) ≠ "_id" by decide)]
    have hbu : assocLookup (transformBase sp doc ret opts) "updatedAt" =
        assocLookup (transformR3 sp doc ret opts) "updatedAt" := by
      unfold transformBase
      rw [assocLookup_erase_ne _ _ _
          (show ("updatedAt" : String) ≠ "password" by decide),
        assocLookup_erase_ne _ _ _
          (show ("updatedAt" : String) ≠ "__v" by decide),
        assocLookup_erase_ne _ _ _
          (show ("updatedAt" : String) ≠ "_id" by decide)]
    have hfc : assocLookup out "createdAt" =
        assocLookup (transformBase sp doc ret opts) "createdAt" :=
      applyAliasEntries_preserve_lookup (aliasEntries opts.aliasSpec)
        (transformBase sp doc ret opts) out "createdAt"
        (fun e he => (halias e he).1) hout
    have hfu : assocLookup out "updatedAt" =
        assocLookup (transformBase sp doc ret opts) "updatedAt" :=
      applyAliasEntries_preserve_lookup (aliasEntries opts.aliasSpec)
        (transformBase sp doc ret opts) out "updatedAt"
        (fun e he => (halias e he).2) hout
    exact ⟨by rw [hfc, hbc, h3c], by rw [hfu, hbu, h3u]⟩
  · intro hf
    have h3c : hasKeyF (transformR3 sp doc ret opts) "createdAt" = false := by
      unfold transformR3
      rw [if_neg (by rw [hf]; exact Bool.false_ne_true)]
      exact hasKeyF_erase_false _ _ _ (hasKeyF_erase_self _ _)
    have h3u : hasKeyF (transformR3 sp doc ret opts) "updatedAt" = false := by
      unfold transformR3
      rw [if_neg (by rw [hf]; exact Bool.false_ne_true)]
      exact hasKeyF_erase_self _ _
    have hbc : hasKeyF (transformBase sp doc ret opts) "createdAt" =
        false := by
      unfold transformBase
      exact hasKeyF_erase_false _ _ _
        (hasKeyF_erase_false _ _ _ (hasKeyF_erase_false _ _ _ h3c))
    have hbu : hasKeyF (transformBase sp doc ret opts) "updatedAt" =
        false := by
      unfold transformBase
      exact hasKeyF_erase_false _ _ _
        (hasKeyF_erase_false _ _ _ (hasKeyF_erase_false _ _ _ h3u))
    constructor
    · exact applyAliasEntries_preserve_hasKey_false
        (aliasEntries opts.aliasSpec) (transformBase sp doc ret opts) out
        "createdAt" hbc (fun e he => (halias e he).1.2) hout
    · exact applyAliasEntries_preserve_hasKey_false
        (aliasEntries opts.aliasSpec) (transformBase sp doc ret opts) out
        "updatedAt" hbu (fun e he => (halias e he).2.2) hout

/-- Witness for the amended C10 with `includeTimeStamps` and timestamps on
the source document only. -/
theorem c10_amended_timestamps_witness :
    assocLookup [("id", none), ("createdAt", some (vstr "d1")),
        ("updatedAt", some (vstr "d2"))] "createdAt" =
      some (jsOrOpt (objLookupJS [] "createdAt")
        (jsGet (vobj [("createdAt", some (vstr "d1")),
          ("updatedAt", some (vstr "d2"))]) "createdAt")) :=
  ((c10_amended_timestamps []
      (vobj [("createdAt", some (vstr "d1")),
        ("updatedAt", some (vstr "d2"))])
      [] { includeTimeStamps := true }
      [("id", none), ("createdAt", some (vstr "d1")),
        ("updatedAt", some (vstr "d2"))]
      (fun pr hpr => absurd hpr (List.not_mem_nil pr))
      (fun e he => absurd he (List.not_mem_nil e)) rfl).1 rfl).1
